import Mathlib

/-!
Verification of the tabular data normalization and aggregation pipeline of the
co-investor report generator: the value parsers (`parseCurrency`, `parsePercent`),
value formatters (`formatCurrency`, `toTitleCase`), the portfolio aggregator, and
the table projection / footer layout shared by the interactive preview
(`ReportPreview.tsx`) and the PDF export (`generatePdf`).

Modelling conventions for the JavaScript source:
* JS numbers are modelled exactly: a finite JS number is a rational together with
  a negative-zero flag (`JsFin`); parse results that can be non-finite are
  modelled by `JsNum` with `inf`, `negInf` and `nan` constructors.  Binary
  floating point rounding is idealized away (exact rational arithmetic); the
  negative-zero distinction is kept because `Intl.NumberFormat` displays a sign
  for `-0` and `Number("-0.00")` evaluates to `-0`.
* JS cell values (`row[header]`) are modelled by `Value`: a number, a string,
  `null`/`undefined` (merged, as every use site is behind `?? ''` or a
  `typeof` guard that treats them identically), or a boolean as a
  representative of "any other value".
* String scanning (regex replaces, `trim`, `toLowerCase`) is modelled on
  `List Char` with ASCII case mapping.
-/

namespace ReportGen

/-- A finite JavaScript number: an exact rational plus a flag marking the IEEE
value `-0` (only meaningful when `q = 0`). -/
structure JsFin where
  q : ℚ
  negZero : Bool
deriving DecidableEq

/-- A JavaScript number as produced by `parseFloat` / arithmetic: finite,
`Infinity`, `-Infinity` or `NaN`. -/
inductive JsNum
  | fin (f : JsFin)
  | inf
  | negInf
  | nan
deriving DecidableEq

/-- A raw spreadsheet cell value as seen by the formatters: a number, a string,
`null`/`undefined`, or a boolean standing in for any other non-string
non-number value. -/
inductive Value
  | num (f : JsFin)
  | str (s : String)
  | null
  | bool (b : Bool)
deriving DecidableEq

/-- A table row: a finite map from header names to raw cell values, as the
JS object `{header: value, ...}`. -/
abbrev Row := List (String × Value)

/-- `row[header]`: the JS property access; an absent key is `undefined`,
modelled by `Value.null`. -/
def getCell (r : Row) (h : String) : Value :=
  ((r.find? (fun p => p.1 == h)).map Prod.snd).getD .null

/-- Model of the JS whitespace class used by `String.prototype.trim`. -/
def jsWS (c : Char) : Bool := c.isWhitespace

/-- `value.trim() === ''`: the string consists only of whitespace. -/
def wsOnly (s : String) : Bool := s.toList.all jsWS

/-- `String.prototype.trim`: drop leading and trailing whitespace. -/
def jsTrimList (cs : List Char) : List Char :=
  ((cs.dropWhile jsWS).reverse.dropWhile jsWS).reverse

/-- ASCII model of `String.prototype.toLowerCase`, computed characterwise on
the underlying character list. -/
def lowerStr (s : String) : String := String.mk (s.toList.map Char.toLower)

/-- The character class kept by `value.replace(/[^0-9.-]+/g, '')`:
decimal digits, the decimal point and the minus sign. -/
def currencyKeep (c : Char) : Bool := c.isDigit || c == '.' || c == '-'

/-- Numeric value of a decimal digit character. -/
def digitVal (c : Char) : ℕ := c.toNat - 48

/-- Value of a big-endian list of decimal digit characters. -/
def digitsToNat (cs : List Char) : ℕ := cs.foldl (fun a c => 10 * a + digitVal c) 0

/-- The decimal digit character for `d % 10`. -/
def digitChar (d : ℕ) : Char := Char.ofNat (48 + d % 10)

/-- Big-endian decimal digits, structurally recursive on a fuel argument so
that the kernel can evaluate it (the fuel is always sufficient at the wrapper
below). -/
def natDigitsAux : ℕ → ℕ → List Char
  | 0, _ => []
  | fuel + 1, n => if n < 10 then [digitChar n] else natDigitsAux fuel (n / 10) ++ [digitChar (n % 10)]

/-- Big-endian decimal digits of a natural number (`0` renders as `"0"`). -/
def natDigits (n : ℕ) : List Char := natDigitsAux (n + 1) n

/-- Decimal string of a natural number (JS integer `toString`). -/
def natStr (n : ℕ) : String := String.mk (natDigits n)

/-- Value of a fractional digit block: `digits / 10 ^ length`. -/
def fracVal (cs : List Char) : ℚ := (digitsToNat cs : ℚ) / 10 ^ cs.length

/-- `Number(cleanedString)` for the unsigned part of a string over the alphabet
`[0-9.-]`: valid iff it has no further minus sign, at most one dot and at least
one digit; the result is the rational value together with a zero-flag (the
value is zero iff all its digits are zero). (General `Number` also accepts
exponents, hex, `Infinity` and whitespace, none of which survive the
`[^0-9.-]` strip at the call site.) -/
def jsUnsignedOfCleaned (rest : List Char) : Option (ℚ × Bool) :=
  if rest.any (· == '-') then none
  else if 2 ≤ (rest.filter (· == '.')).length then none
  else if ¬ rest.any Char.isDigit then none
  else
    some ((digitsToNat (rest.takeWhile (· != '.')) : ℚ) +
            fracVal ((rest.dropWhile (· != '.')).drop 1),
          digitsToNat (rest.takeWhile (· != '.')) == 0 &&
            digitsToNat ((rest.dropWhile (· != '.')).drop 1) == 0)

/-- `Number(cleanedString)` on the `[0-9.-]` alphabet, with JS signed zero:
`Number("-0.00")` is `-0`. Returns `none` for `NaN`. -/
def jsNumberOfCleaned (cs : List Char) : Option JsFin :=
  match cs with
  | '-' :: rest => (jsUnsignedOfCleaned rest).map (fun p => ⟨-p.1, p.2⟩)
  | _ => (jsUnsignedOfCleaned cs).map (fun p => ⟨p.1, false⟩)

/-- `parseCurrency` from `src/services/formatters.ts` (lines 20-50): numbers
pass through; non-strings and whitespace-only strings are unparseable; the
string is stripped to `[0-9.-]`, trivial residues are unparseable, the residue
is converted by `Number`, and a strictly positive result is negated when the
original string contains both `'('` and `')'`. -/
def parseCurrency : Value → Option JsFin
  | .num f => some f
  | .str s =>
    if wsOnly s then none
    else
      let isNeg := s.toList.contains '(' && s.toList.contains ')'
      let cleaned := s.toList.filter currencyKeep
      if cleaned = [] ∨ cleaned = ['.'] ∨ cleaned = ['-'] then none
      else
        match jsNumberOfCleaned cleaned with
        | none => none
        | some f => if isNeg = true ∧ 0 < f.q then some ⟨-f.q, false⟩ else some f
  | _ => none

/-- Cents of `|q|` rounded half-away-from-zero to two fraction digits, the
default `Intl.NumberFormat` rounding (`roundingMode: "halfExpand"`). -/
def centsOf (q : ℚ) : ℕ := ⌊|q| * 100 + 1 / 2⌋₊

/-- Blocks-of-three grouping on a reversed digit list, structurally recursive
on a fuel argument (always sufficient at the wrapper below). -/
def group3RevAux : ℕ → List Char → List Char
  | 0, l => l
  | fuel + 1, l => if l.length ≤ 3 then l else l.take 3 ++ ',' :: group3RevAux fuel (l.drop 3)

/-- Group a reversed digit list in blocks of three with `','` separators. -/
def group3Rev (l : List Char) : List Char := group3RevAux l.length l

/-- Insert `en-US` thousands separators into a big-endian digit list. -/
def groupDigits (ds : List Char) : List Char := (group3Rev ds.reverse).reverse

/-- Two-digit zero-padded rendering of `n % 100`. -/
def pad2 (n : ℕ) : List Char := [digitChar (n / 10), digitChar n]

/-- Whether `Intl.NumberFormat` displays a minus sign: the value is negative
or negative zero. -/
def negDisplay (f : JsFin) : Bool := if f.q < 0 then true else f.negZero

/-- Character rendering of
`new Intl.NumberFormat('en-US', {style:'currency',currency:'USD'}).format`:
optional minus, `$`, grouped integer dollars, `.`, two cent digits. -/
def usdChars (f : JsFin) : List Char :=
  (if negDisplay f then ['-'] else []) ++
    '$' :: groupDigits (natDigits (centsOf f.q / 100)) ++ '.' :: pad2 (centsOf f.q % 100)

/-- The `en-US` USD currency string for a finite JS number. -/
def formatUSD (f : JsFin) : String := String.mk (usdChars f)

/-- Drop trailing `'0'` characters (JS prints the shortest decimal). -/
def trimTrailingZeros (cs : List Char) : List Char :=
  (cs.reverse.dropWhile (· == '0')).reverse

/-- Left-pad a digit list with `'0'` to width `w`. -/
def padLeftZeros (w : ℕ) (cs : List Char) : List Char :=
  List.replicate (w - cs.length) '0' ++ cs

/-- JS `ToString` on a number, on the exact-decimal fragment of the model:
`-0` prints as `"0"`, terminating decimals print sign, integer part and the
fraction with trailing zeros trimmed.  (Rationals without terminating decimal
expansion are not representable as JS doubles; they get a fallback rendering.
JS exponent notation for magnitudes outside `[1e-6, 1e21)` is not modelled;
no claim depends on it.) -/
def numToString (f : JsFin) : String :=
  if f.q = 0 then "0"
  else
    let sign := if f.q < 0 then "-" else ""
    let n := f.q.num.natAbs
    let d := f.q.den
    if (10 : ℕ) ^ d % d = 0 then
      let scaled := n * ((10 : ℕ) ^ d / d)
      let ip := scaled / 10 ^ d
      let fr := scaled % 10 ^ d
      let frDigits := trimTrailingZeros (padLeftZeros d (natDigits fr))
      sign ++ natStr ip ++ (if frDigits = [] then "" else "." ++ String.mk frDigits)
    else sign ++ natStr n ++ "/" ++ natStr d

/-- JS `String(v)` coercion. -/
def jsToString : Value → String
  | .num f => numToString f
  | .str s => s
  | .null => "null"
  | .bool b => if b then "true" else "false"

/-- `String(value ?? '')`: `null`/`undefined` become the empty string. -/
def jsStringOrEmpty : Value → String
  | .null => ""
  | v => jsToString v

/-- `formatCurrency` from `src/services/formatters.ts` (lines 58-69): parse,
fall back to `String(value ?? '')` on failure, otherwise `en-US` USD format. -/
def formatCurrency (v : Value) : String :=
  match parseCurrency v with
  | none => jsStringOrEmpty v
  | some f => formatUSD f

/-- Does `pre` occur as a prefix of `l`? -/
def startsWithList (pre l : List Char) : Bool :=
  match pre, l with
  | [], _ => true
  | _ :: _, [] => false
  | p :: ps, c :: cs => p == c && startsWithList ps cs

/-- Exponent digits of a `StrDecimalLiteral` tail: a signed digit block after
`e`/`E`; an `e` not followed by digits is not consumed (backtracking). -/
def expSigned (r : List Char) : ℤ :=
  match r with
  | '-' :: d => if d.takeWhile Char.isDigit = [] then 0
                else -(digitsToNat (d.takeWhile Char.isDigit) : ℤ)
  | '+' :: d => if d.takeWhile Char.isDigit = [] then 0
                else (digitsToNat (d.takeWhile Char.isDigit) : ℤ)
  | d => if d.takeWhile Char.isDigit = [] then 0
         else (digitsToNat (d.takeWhile Char.isDigit) : ℤ)

/-- Exponent part of a `StrDecimalLiteral` tail, `0` when absent. -/
def expOf (cs : List Char) : ℤ :=
  match cs with
  | 'e' :: r => expSigned r
  | 'E' :: r => expSigned r
  | _ => 0

/-- JS `parseFloat`: skip leading whitespace, read an optional sign, then the
longest prefix that is an `Infinity` keyword or a decimal literal with optional
fraction and exponent; `NaN` when no such prefix exists.  (Exponent scaling is
exact rational arithmetic; double overflow to `Infinity` is idealized away.) -/
def jsParseFloat (s : List Char) : JsNum :=
  let cs0 := s.dropWhile jsWS
  let neg : Bool := match cs0 with | '-' :: _ => true | _ => false
  let cs := match cs0 with | '-' :: r => r | '+' :: r => r | _ => cs0
  if startsWithList ("Infinity".toList) cs then (if neg then .negInf else .inf)
  else
    let intDs := cs.takeWhile Char.isDigit
    let rest1 := cs.dropWhile Char.isDigit
    let fracDs := match rest1 with | '.' :: r => r.takeWhile Char.isDigit | _ => []
    let rest2 := match rest1 with | '.' :: r => r.dropWhile Char.isDigit | _ => rest1
    if intDs = [] ∧ fracDs = [] then .nan
    else
      let base : ℚ := (digitsToNat intDs : ℚ) + fracVal fracDs
      .fin ⟨(if neg then -1 else 1) * base * (10 : ℚ) ^ expOf rest2,
            neg && (digitsToNat intDs == 0 && digitsToNat fracDs == 0)⟩

/-- `parsePercent` from `src/services/formatters.ts` (lines 76-86): numbers
pass through; non-strings and whitespace-only strings are unparseable; all
`'%'` characters are removed, the remainder is trimmed and fed to `parseFloat`;
only a `NaN` result is mapped to `null` (non-finite results pass through). -/
def parsePercent : Value → Option JsNum
  | .num f => some (.fin f)
  | .str s =>
    if wsOnly s then none
    else
      match jsParseFloat (jsTrimList (s.toList.filter (· != '%'))) with
      | .nan => none
      | x => some x
  | _ => none

/-- The `\w` class of the title-case regex: ASCII letter, digit or underscore. -/
def isWordChar (c : Char) : Bool := c.isAlphanum || c == '_'

theorem dropWhile_length_le {α : Type} (p : α → Bool) (l : List α) :
    (l.dropWhile p).length ≤ l.length := by
  induction l with
  | nil => simp [List.dropWhile]
  | cons c cs ih =>
    by_cases h : p c = true
    · simpa [List.dropWhile, h] using Nat.le_succ_of_le ih
    · simp [List.dropWhile, h]

/-- One scan of `str.replace(/\w\S*/g, txt => txt.charAt(0).toUpperCase() +
txt.substr(1).toLowerCase())`, structurally recursive on a fuel argument
(always sufficient at the wrapper below): a match starts at a word character
and extends through the following non-whitespace characters; its first
character is upper-cased and the rest lower-cased; all other characters pass
through. -/
def titleAuxF : ℕ → List Char → List Char
  | 0, cs => cs
  | fuel + 1, cs =>
    match cs with
    | [] => []
    | c :: rest =>
      if isWordChar c then
        c.toUpper :: ((rest.takeWhile (fun x => !jsWS x)).map Char.toLower ++
          titleAuxF fuel (rest.dropWhile (fun x => !jsWS x)))
      else c :: titleAuxF fuel rest

/-- The title-case regex scan over a whole character list. -/
def titleAux (cs : List Char) : List Char := titleAuxF cs.length cs

/-- `toTitleCase` from `src/services/formatters.ts` (lines 6-12). -/
def toTitleCase (s : String) : String :=
  if s = "" then "" else String.mk (titleAux s.toList)

/-- First header matching a role name case-insensitively:
`headers.find(h => h.toLowerCase() === targetHeader.toLowerCase())`. -/
def roleHeader (headers : List String) (target : String) : Option String :=
  headers.find? (fun h => lowerStr h == lowerStr target)

/-- `parseCurrency(...) || 0` inside the aggregation `reduce`: `null` and the
falsy numbers `0`/`-0` give `+0`; any other number passes through.  In the
exact model the value is the underlying rational. -/
def jsOrZeroQ : Option JsFin → ℚ
  | none => 0
  | some f => if f.q = 0 then 0 else f.q

/-- JS `+` on numbers (`NaN` absorbs, opposite infinities give `NaN`,
`-0 + -0 = -0` and any other zero sum is `+0`). -/
def jsAdd : JsNum → JsNum → JsNum
  | .nan, _ => .nan
  | _, .nan => .nan
  | .inf, .negInf => .nan
  | .negInf, .inf => .nan
  | .inf, _ => .inf
  | _, .inf => .inf
  | .negInf, _ => .negInf
  | _, .negInf => .negInf
  | .fin a, .fin b => .fin ⟨a.q + b.q, a.negZero && b.negZero⟩

/-- The JS number `+0`. -/
def jsZero : JsNum := .fin ⟨0, false⟩

/-- `parsePercent(...) || 0`: `null`, `NaN` and the falsy zeros give `+0`;
infinities and nonzero finite values pass through. -/
def jsOrZeroNum : Option JsNum → JsNum
  | none => jsZero
  | some .nan => jsZero
  | some (.fin f) => if f.q = 0 then jsZero else .fin f
  | some x => x

/-- JS division of a number by a natural count (`x / 0` follows JS signs). -/
def jsDivNat : JsNum → ℕ → JsNum
  | .fin f, n =>
    if n = 0 then (if 0 < f.q then .inf else if f.q < 0 then .negInf else .nan)
    else .fin ⟨f.q / n, f.negZero⟩
  | .inf, _ => .inf
  | .negInf, _ => .negInf
  | .nan, _ => .nan

/-- `data.reduce((acc, row) => acc + (parseCurrency(row[h]) || 0), 0)`. -/
def currencySum (data : List Row) (h : String) : ℚ :=
  data.foldl (fun acc row => acc + jsOrZeroQ (parseCurrency (getCell row h))) 0

/-- `data.reduce((acc, row) => acc + (parsePercent(row[h]) || 0), 0)`. -/
def percentSum (data : List Row) (h : String) : JsNum :=
  data.foldl (fun acc row => jsAdd acc (jsOrZeroNum (parsePercent (getCell row h)))) jsZero

/-- The portfolio aggregate record computed identically by the preview
(`ReportPreview.tsx`, lines 99-121) and the PDF export (`generatePdf`). -/
structure Totals where
  regularPaymentTotal : ℚ
  loanBalanceTotal : ℚ
  portfolioYield : JsNum
  loanCount : ℕ
deriving DecidableEq

/-- The totals computation shared verbatim by `ReportPreview` and
`generatePdf`: role headers are matched case-insensitively; currency totals
sum with `Unparseable → 0` and are `0` when the role is absent; the loan count
is the row count; the yield is the percent sum over all rows divided by the
loan count when the Interest Rate role is present and the count is positive,
else `0`. -/
def computeTotals (headers : List String) (data : List Row) : Totals where
  regularPaymentTotal :=
    match roleHeader headers "Regular Payment" with
    | some h => currencySum data h
    | none => 0
  loanBalanceTotal :=
    match roleHeader headers "Loan Balance" with
    | some h => currencySum data h
    | none => 0
  portfolioYield :=
    match roleHeader headers "Interest Rate" with
    | some h => if 0 < data.length then jsDivNat (percentSum data h) data.length else jsZero
    | none => jsZero
  loanCount := data.length

/-- Four-digit zero-padded rendering of `n % 10000`. -/
def pad4 (n : ℕ) : List Char :=
  [digitChar (n / 1000), digitChar (n / 100), digitChar (n / 10), digitChar n]

/-- JS `Number.prototype.toFixed(4)`: sign of negative values (not of `-0`),
then the absolute value rounded half-up to four fraction digits; `Infinity`
and `NaN` print as words. -/
def toFixed4 : JsNum → String
  | .nan => "NaN"
  | .inf => "Infinity"
  | .negInf => "-Infinity"
  | .fin f =>
    let m : ℕ := ⌊|f.q| * 10000 + 1 / 2⌋₊
    String.mk ((if f.q < 0 then ['-'] else []) ++ natDigits (m / 10000) ++ '.' :: pad4 (m % 10000))

/-- The composed yield/count footer string
`` `Portfolio Yield: ${portfolioYield.toFixed(4)}% (${loanCount} loans)` ``. -/
def yieldText (t : Totals) : String :=
  "Portfolio Yield: " ++ toFixed4 t.portfolioYield ++ "% (" ++ natStr t.loanCount ++ " loans)"

/-- Is this selected header one of the two currency-formatted roles? -/
def isCurrencyHeader (h : String) : Bool :=
  lowerStr h == "regular payment" || lowerStr h == "loan balance"

/-- A preview body cell (`ReportPreview.tsx`, lines 154-169):
`formatCurrency(row[header])` for the currency roles, else
`String(row[header] ?? '')`. -/
def previewCell (row : Row) (h : String) : String :=
  if isCurrencyHeader h then formatCurrency (getCell row h)
  else jsStringOrEmpty (getCell row h)

/-- The raw value placed in the PDF table body (`generatePdf`):
the currency roles are pre-formatted, all other cells are `row[header] ?? ''`. -/
def pdfCellValue (row : Row) (h : String) : Value :=
  if isCurrencyHeader h then .str (formatCurrency (getCell row h))
  else match getCell row h with
       | .null => .str ""
       | v => v

/-- The string the PDF table renderer displays for a body cell (the external
renderer coerces cell values with `String(...)`). -/
def pdfCellString (row : Row) (h : String) : String := jsToString (pdfCellValue row h)

/-- The preview body: the first 50 rows (`data.slice(0, 50)`), each projected
through the selected headers in order. -/
def previewBodyRows (headers : List String) (data : List Row) : List (List String) :=
  (data.take 50).map (fun row => headers.map (previewCell row))

/-- The PDF body (`tableData`): every row, projected through the selected
headers in order, as display strings. -/
def pdfBodyRows (headers : List String) (data : List Row) : List (List String) :=
  data.map (fun row => headers.map (pdfCellString row))

/-- The row-cap indicator below the preview, shown only when more than 50
rows exist: `Mostrando las primeras 50 filas de {data.length} totales.` -/
def previewIndicator (data : List Row) : Option String :=
  if 50 < data.length then
    some ("Mostrando las primeras 50 filas de " ++ natStr data.length ++ " totales.")
  else none

/-- The lower-cased right-aligned role set shared by the preview and the PDF
column styles. -/
def columnsToAlignRight : List String :=
  ["Interest Rate", "Maturity Date", "Term Left", "Regular Payment", "Loan Balance",
   "Percent Owned"].map lowerStr

/-- Right-alignment flag of one preview column. -/
def previewAlignRight (h : String) : Bool := columnsToAlignRight.contains (lowerStr h)

/-- Per-column right-alignment of the preview table, in selected order. -/
def previewAlignFlags (headers : List String) : List Bool :=
  headers.map previewAlignRight

/-- Per-column right-alignment of the PDF table (`columnStyles`): index `i` is
styled `halign: 'right'` exactly when the header is in the right-aligned set. -/
def pdfAlignFlags (headers : List String) : List Bool :=
  headers.map (fun h => columnsToAlignRight.contains (lowerStr h))

/-- `headers.findIndex(h => h.toLowerCase() === target.toLowerCase())`, with
JS `-1` modelled as `none`. -/
def roleIndex (headers : List String) (target : String) : Option ℕ :=
  headers.findIdx? (fun h => lowerStr h == lowerStr target)

/-- The preview footer row (`ReportPreview.tsx`, lines 170-194): a branch
cascade per column index — index 0 is the literal `"Totals"`; index 1 is the
yield text when an Interest Rate header is selected; the Regular Payment /
Loan Balance column positions get their formatted totals; all other cells are
empty. -/
def previewFooterCells (headers : List String) (data : List Row) : List String :=
  let t := computeTotals headers data
  let rpIdx := roleIndex headers "Regular Payment"
  let lbIdx := roleIndex headers "Loan Balance"
  let hasIR := headers.any (fun h => lowerStr h == "interest rate")
  (List.range headers.length).map (fun index =>
    if index = 0 then "Totals"
    else if index = 1 ∧ hasIR = true then yieldText t
    else if rpIdx = some index then formatCurrency (.num ⟨t.regularPaymentTotal, false⟩)
    else if lbIdx = some index then formatCurrency (.num ⟨t.loanBalanceTotal, false⟩)
    else "")

/-- The PDF footer row contents (`generatePdf`): an all-empty row of the
selected width, then in-place assignments — `"Totals"` at 0, the yield text at
1 when Interest Rate is present, then the currency totals at their column
positions (later assignments overwrite earlier ones). -/
def pdfFooterCells (headers : List String) (data : List Row) : List String :=
  let t := computeTotals headers data
  let rpIdx := roleIndex headers "Regular Payment"
  let lbIdx := roleIndex headers "Loan Balance"
  let hasIR := (roleHeader headers "Interest Rate").isSome
  let f0 : List String := List.replicate headers.length ""
  let f1 := if 0 < headers.length then f0.set 0 "Totals" else f0
  let f2 := if 1 < headers.length ∧ hasIR = true then f1.set 1 (yieldText t) else f1
  let f3 := match rpIdx with
            | some i => f2.set i (formatCurrency (.num ⟨t.regularPaymentTotal, false⟩))
            | none => f2
  let f4 := match lbIdx with
            | some i => f3.set i (formatCurrency (.num ⟨t.loanBalanceTotal, false⟩))
            | none => f3
  f4

theorem jsNumberOfCleaned_nil : jsNumberOfCleaned [] = none := by decide

theorem jsNumberOfCleaned_dot : jsNumberOfCleaned ['.'] = none := by decide

theorem jsNumberOfCleaned_dash : jsNumberOfCleaned ['-'] = none := by decide

/-- Evaluation of the unsigned `Number` conversion: all hypotheses are
kernel-decidable character/ℕ computations, the conclusion exposes the value as
a rational expression in the two digit blocks. -/
theorem jsUnsignedOfCleaned_eval (cs : List Char) (a b L : ℕ)
    (h1 : cs.any (· == '-') = false)
    (h2 : (cs.filter (· == '.')).length ≤ 1)
    (h3 : cs.any Char.isDigit = true)
    (h4 : digitsToNat (cs.takeWhile (· != '.')) = a)
    (h5 : digitsToNat ((cs.dropWhile (· != '.')).drop 1) = b)
    (h6 : ((cs.dropWhile (· != '.')).drop 1).length = L) :
    jsUnsignedOfCleaned cs = some ((a : ℚ) + b / 10 ^ L, a == 0 && b == 0) := by
  rw [jsUnsignedOfCleaned, if_neg (by simp [h1]), if_neg (by omega), if_neg (by simp [h3]),
    fracVal, h4, h5, h6]

/-- A positive (no leading minus) cleaned residue evaluates to its digit
blocks. -/
theorem jsNumberOfCleaned_eval_pos (c0 : Char) (cs : List Char) (a b L : ℕ)
    (hc0 : (c0 == '-') = false)
    (h1 : (c0 :: cs).any (· == '-') = false)
    (h2 : ((c0 :: cs).filter (· == '.')).length ≤ 1)
    (h3 : (c0 :: cs).any Char.isDigit = true)
    (h4 : digitsToNat ((c0 :: cs).takeWhile (· != '.')) = a)
    (h5 : digitsToNat (((c0 :: cs).dropWhile (· != '.')).drop 1) = b)
    (h6 : (((c0 :: cs).dropWhile (· != '.')).drop 1).length = L) :
    jsNumberOfCleaned (c0 :: cs) = some ⟨(a : ℚ) + b / 10 ^ L, false⟩ := by
  have hu := jsUnsignedOfCleaned_eval (c0 :: cs) a b L h1 h2 h3 h4 h5 h6
  rw [jsNumberOfCleaned.eq_def]
  split
  · rename_i rest heq
    exfalso
    rw [List.cons.injEq] at heq
    rw [heq.1] at hc0
    simp at hc0
  · rw [hu]
    rfl

/-- A minus-signed cleaned residue evaluates to the negation of its digit
blocks, flagged `-0` when all digits are zero. -/
theorem jsNumberOfCleaned_eval_neg (cs : List Char) (a b L : ℕ)
    (h1 : cs.any (· == '-') = false)
    (h2 : (cs.filter (· == '.')).length ≤ 1)
    (h3 : cs.any Char.isDigit = true)
    (h4 : digitsToNat (cs.takeWhile (· != '.')) = a)
    (h5 : digitsToNat ((cs.dropWhile (· != '.')).drop 1) = b)
    (h6 : ((cs.dropWhile (· != '.')).drop 1).length = L) :
    jsNumberOfCleaned ('-' :: cs) = some ⟨-((a : ℚ) + b / 10 ^ L), a == 0 && b == 0⟩ := by
  have hu := jsUnsignedOfCleaned_eval cs a b L h1 h2 h3 h4 h5 h6
  have hstep : jsNumberOfCleaned ('-' :: cs) =
      (jsUnsignedOfCleaned cs).map (fun p => ⟨-p.1, p.2⟩) := rfl
  rw [hstep, hu]
  rfl

/-- The general string clause of `parseCurrency`, as a reusable evaluation
rule: a non-whitespace-only string whose cleaned residue converts to `f`
parses to `f`, negated when parenthesized accounting notation is present and
`f` is strictly positive. -/
theorem parseCurrency_str_eval (s : String) (f : JsFin)
    (hws : wsOnly s = false)
    (hnum : jsNumberOfCleaned (s.toList.filter currencyKeep) = some f) :
    parseCurrency (.str s) =
      some (if (s.toList.contains '(' && s.toList.contains ')') = true ∧ 0 < f.q then
              ⟨-f.q, false⟩ else f) := by
  have hres : ¬ (s.toList.filter currencyKeep = [] ∨
      s.toList.filter currencyKeep = ['.'] ∨ s.toList.filter currencyKeep = ['-']) := by
    rintro (h | h | h) <;>
      rw [h] at hnum <;>
      simp [jsNumberOfCleaned_nil, jsNumberOfCleaned_dot, jsNumberOfCleaned_dash] at hnum
  simp only [parseCurrency, hws, if_false, Bool.false_eq_true]
  rw [if_neg hres, hnum, apply_ite some]

/-- **C1.** `parseCurrency` satisfies its full contract: numeric inputs pass
through unchanged; non-string non-number inputs and whitespace-only strings
are unparseable; otherwise the string is stripped to digits, `'.'` and `'-'`,
an empty/`"."`/`"-"`/non-numeric residue is unparseable, and a strictly
positive conversion is negated exactly when the original string contains both
`'('` and `')'` (an explicit minus is never double-negated); together with the
five quoted examples. -/
theorem parseCurrency_contract :
    (∀ f : JsFin, parseCurrency (.num f) = some f) ∧
    (parseCurrency .null = none) ∧
    (∀ b, parseCurrency (.bool b) = none) ∧
    (∀ s, wsOnly s = true → parseCurrency (.str s) = none) ∧
    (∀ s, (s.toList.filter currencyKeep = [] ∨ s.toList.filter currencyKeep = ['.'] ∨
           s.toList.filter currencyKeep = ['-']) → parseCurrency (.str s) = none) ∧
    (∀ s, jsNumberOfCleaned (s.toList.filter currencyKeep) = none →
      parseCurrency (.str s) = none) ∧
    (∀ s f, wsOnly s = false → jsNumberOfCleaned (s.toList.filter currencyKeep) = some f →
      parseCurrency (.str s) =
        some (if (s.toList.contains '(' && s.toList.contains ')') = true ∧ 0 < f.q then
                ⟨-f.q, false⟩ else f)) ∧
    parseCurrency (.str "$1,234.56") = some ⟨1234.56, false⟩ ∧
    parseCurrency (.str "(1,234.56)") = some ⟨-1234.56, false⟩ ∧
    parseCurrency (.str "-1,234.56") = some ⟨-1234.56, false⟩ ∧
    parseCurrency (.str "") = none ∧
    parseCurrency (.str "abc") = none := by
  refine ⟨fun f => rfl, rfl, fun b => rfl, ?_, ?_, ?_,
    fun s f hws hnum => parseCurrency_str_eval s f hws hnum, ?_, ?_, ?_, by decide, by decide⟩
  · intro s hws
    simp [parseCurrency, hws]
  · intro s hresidue
    by_cases hws : wsOnly s
    · simp [parseCurrency, hws]
    · simp only [parseCurrency, hws, if_false, Bool.false_eq_true]
      rw [if_pos hresidue]
  · intro s hnum
    by_cases hws : wsOnly s
    · simp [parseCurrency, hws]
    · by_cases hres : (s.toList.filter currencyKeep = [] ∨
        s.toList.filter currencyKeep = ['.'] ∨ s.toList.filter currencyKeep = ['-'])
      · simp only [parseCurrency, hws, if_false, Bool.false_eq_true]
        rw [if_pos hres]
      · simp only [parseCurrency, hws, if_false, Bool.false_eq_true]
        rw [if_neg hres, hnum]
  · have hn : jsNumberOfCleaned ("$1,234.56".toList.filter currencyKeep) =
        some ⟨(1234 : ℚ) + 56 / 10 ^ 2, false⟩ := by
      have hcl : "$1,234.56".toList.filter currencyKeep =
          '1' :: ['2', '3', '4', '.', '5', '6'] := by decide
      rw [hcl]
      exact jsNumberOfCleaned_eval_pos '1' ['2', '3', '4', '.', '5', '6'] 1234 56 2
        (by decide) (by decide) (by decide) (by decide) (by decide) (by decide) (by decide)
    rw [parseCurrency_str_eval _ _ (by decide) hn, if_neg (fun hcond => absurd hcond.1 (by decide))]
    simp only [Option.some.injEq, JsFin.mk.injEq]
    exact ⟨by norm_num, by trivial⟩
  · have hn : jsNumberOfCleaned ("(1,234.56)".toList.filter currencyKeep) =
        some ⟨(1234 : ℚ) + 56 / 10 ^ 2, false⟩ := by
      have hcl : "(1,234.56)".toList.filter currencyKeep =
          '1' :: ['2', '3', '4', '.', '5', '6'] := by decide
      rw [hcl]
      exact jsNumberOfCleaned_eval_pos '1' ['2', '3', '4', '.', '5', '6'] 1234 56 2
        (by decide) (by decide) (by decide) (by decide) (by decide) (by decide) (by decide)
    rw [parseCurrency_str_eval _ _ (by decide) hn, if_pos ⟨by decide, by norm_num⟩]
    simp only [Option.some.injEq, JsFin.mk.injEq]
    exact ⟨by norm_num, by trivial⟩
  · have hn : jsNumberOfCleaned ("-1,234.56".toList.filter currencyKeep) =
        some ⟨-((1234 : ℚ) + 56 / 10 ^ 2), (1234 == 0 && 56 == 0 : Bool)⟩ := by
      have hcl : "-1,234.56".toList.filter currencyKeep =
          '-' :: ['1', '2', '3', '4', '.', '5', '6'] := by decide
      rw [hcl]
      exact jsNumberOfCleaned_eval_neg ['1', '2', '3', '4', '.', '5', '6'] 1234 56 2
        (by decide) (by decide) (by decide) (by decide) (by decide) (by decide)
    rw [parseCurrency_str_eval _ _ (by decide) hn,
      if_neg (fun hcond => absurd hcond.1 (by decide))]
    simp only [Option.some.injEq, JsFin.mk.injEq]
    exact ⟨by norm_num, by trivial⟩

/-- Witness for C1: the general stripping/negation clause applied at the
concrete input `"x(7)y"`, whose residue `"7"` converts to `7` and is negated
by the surrounding parentheses. -/
theorem parseCurrency_contract_witness :
    parseCurrency (.str "x(7)y") =
      some (if ("x(7)y".toList.contains '(' && "x(7)y".toList.contains ')') = true ∧
              0 < (JsFin.mk 7 false).q then ⟨-(7 : ℚ), false⟩ else ⟨7, false⟩) := by
  have hn : jsNumberOfCleaned ("x(7)y".toList.filter currencyKeep) = some ⟨(7 : ℚ), false⟩ := by
    have hcl : "x(7)y".toList.filter currencyKeep = '7' :: [] := by decide
    rw [hcl]
    have h := jsNumberOfCleaned_eval_pos '7' [] 7 0 0
      (by decide) (by decide) (by decide) (by decide) (by decide) (by decide) (by decide)
    rw [h]
    simp only [Option.some.injEq, JsFin.mk.injEq]
    exact ⟨by norm_num, by trivial⟩
  exact parseCurrency_contract.2.2.2.2.2.2.1 "x(7)y" ⟨7, false⟩ (by decide) hn

theorem foldl_add_map_sum (g : Row → ℚ) (data : List Row) (a : ℚ) :
    data.foldl (fun acc row => acc + g row) a = a + (data.map g).sum := by
  induction data generalizing a with
  | nil => simp
  | cons r rs ih => simp [ih, add_assoc]

/-- The accumulating currency `reduce` equals the sum of the per-row parses. -/
theorem currencySum_eq_map_sum (data : List Row) (h : String) :
    currencySum data h = (data.map (fun row => jsOrZeroQ (parseCurrency (getCell row h)))).sum := by
  simpa using foldl_add_map_sum (fun row => jsOrZeroQ (parseCurrency (getCell row h))) data 0

/-- The accumulating percent `reduce` equals the JS fold over the per-row
parses. -/
theorem percentSum_eq_map_foldl (data : List Row) (h : String) :
    percentSum data h =
      (data.map (fun row => jsOrZeroNum (parsePercent (getCell row h)))).foldl jsAdd jsZero := by
  rw [percentSum, List.foldl_map]

/-- Evaluation rule for `parsePercent` on a non-whitespace string whose
cleaned content `parseFloat`s to a non-`NaN` value. -/
theorem parsePercent_str_eval (s : String) (x : JsNum)
    (hws : wsOnly s = false)
    (hx : jsParseFloat (jsTrimList (s.toList.filter (· != '%'))) = x)
    (hnan : x ≠ .nan) :
    parsePercent (.str s) = some x := by
  simp only [parsePercent, hws, if_false, Bool.false_eq_true, hx]

theorem parsePercent_ten : parsePercent (.str "10%") = some (.fin ⟨10, false⟩) := by
  have htrim : jsTrimList ("10%".toList.filter (· != '%')) = ['1', '0'] := by decide
  have hr : jsParseFloat ['1', '0'] =
      .fin ⟨(if false then -1 else 1) * ((digitsToNat ['1', '0'] : ℚ) + fracVal []) *
              (10 : ℚ) ^ expOf [],
            false && (digitsToNat ['1', '0'] == 0 && digitsToNat [] == 0)⟩ := rfl
  have hq : (if false then -1 else 1) * ((digitsToNat ['1', '0'] : ℚ) + fracVal []) *
      (10 : ℚ) ^ expOf [] = 10 := by
    rw [show digitsToNat ['1', '0'] = 10 from by decide, fracVal,
      show digitsToNat ([] : List Char) = 0 from rfl, show ([] : List Char).length = 0 from rfl,
      show expOf [] = 0 from rfl]
    norm_num
  refine parsePercent_str_eval _ _ (by decide) ?_ (by simp)
  rw [htrim, hr]
  simp only [JsNum.fin.injEq, JsFin.mk.injEq]
  exact ⟨hq, by decide⟩

theorem parsePercent_bad : parsePercent (.str "bad") = none := by decide

/-- Evaluating one `jsOrZeroNum (parsePercent ...)` step at a nonzero finite
parse. -/
theorem jsOrZeroNum_fin_nonzero (f : JsFin) (hq : f.q ≠ 0) :
    jsOrZeroNum (some (.fin f)) = .fin f := by
  simp only [jsOrZeroNum]
  rw [if_neg hq]

/-- **C2.** The aggregate record: each currency total is the sum over all rows
of the parsed cell under the case-insensitively matched role header with
`Unparseable` contributing `0`, and `0` when the role is absent; the loan
count is the row count unconditionally; the portfolio yield is the percent sum
over ALL rows divided by the loan count when the Interest Rate role is present
and the count is positive (unparseable rows dilute the mean), and `0`
otherwise — including the spec's two worked examples. -/
theorem computeTotals_contract :
    (∀ headers data h, roleHeader headers "Regular Payment" = some h →
      (computeTotals headers data).regularPaymentTotal =
        (data.map (fun row => jsOrZeroQ (parseCurrency (getCell row h)))).sum) ∧
    (∀ headers data, roleHeader headers "Regular Payment" = none →
      (computeTotals headers data).regularPaymentTotal = 0) ∧
    (∀ headers data h, roleHeader headers "Loan Balance" = some h →
      (computeTotals headers data).loanBalanceTotal =
        (data.map (fun row => jsOrZeroQ (parseCurrency (getCell row h)))).sum) ∧
    (∀ headers data, roleHeader headers "Loan Balance" = none →
      (computeTotals headers data).loanBalanceTotal = 0) ∧
    (∀ headers data, (computeTotals headers data).loanCount = data.length) ∧
    (∀ headers data h, roleHeader headers "Interest Rate" = some h → 0 < data.length →
      (computeTotals headers data).portfolioYield =
        jsDivNat ((data.map (fun row => jsOrZeroNum (parsePercent (getCell row h)))).foldl
          jsAdd jsZero) data.length) ∧
    (∀ headers data, roleHeader headers "Interest Rate" = none →
      (computeTotals headers data).portfolioYield = jsZero) ∧
    (∀ headers, (computeTotals headers []).portfolioYield = jsZero) ∧
    (computeTotals ["Interest Rate"]
        [[("Interest Rate", .str "10%")], [("Interest Rate", .str "bad")]]).portfolioYield =
      .fin ⟨5, false⟩ ∧
    (computeTotals ["Regular Payment"]
        [[("Regular Payment", .str "$100.00")], [("Regular Payment", .str "abc")],
         [("Regular Payment", .num ⟨50, false⟩)]]).regularPaymentTotal = 150 ∧
    (computeTotals ["Regular Payment"]
        [[("Regular Payment", .str "$100.00")], [("Regular Payment", .str "abc")],
         [("Regular Payment", .num ⟨50, false⟩)]]).loanCount = 3 := by
  refine ⟨?_, ?_, ?_, ?_, fun headers data => rfl, ?_, ?_, ?_, ?_, ?_, rfl⟩
  · intro headers data h hfind
    simp only [computeTotals, hfind]
    exact currencySum_eq_map_sum data h
  · intro headers data hfind
    simp only [computeTotals, hfind]
  · intro headers data h hfind
    simp only [computeTotals, hfind]
    exact currencySum_eq_map_sum data h
  · intro headers data hfind
    simp only [computeTotals, hfind]
  · intro headers data h hfind hlen
    simp only [computeTotals, hfind, if_pos hlen]
    rw [percentSum_eq_map_foldl]
  · intro headers data hfind
    simp only [computeTotals, hfind]
  · intro headers
    simp only [computeTotals]
    split <;> rfl
  · have hfind : roleHeader ["Interest Rate"] "Interest Rate" = some "Interest Rate" := by decide
    simp only [computeTotals, hfind, List.length_cons, List.length_nil]
    rw [if_pos (by norm_num)]
    have hcell1 : getCell [("Interest Rate", .str "10%")] "Interest Rate" = .str "10%" := by decide
    have hcell2 : getCell [("Interest Rate", .str "bad")] "Interest Rate" = .str "bad" := by decide
    rw [percentSum, List.foldl_cons, List.foldl_cons, List.foldl_nil, hcell1, hcell2,
      parsePercent_ten, parsePercent_bad, jsOrZeroNum_fin_nonzero _ (by norm_num)]
    show jsDivNat (jsAdd (jsAdd jsZero (.fin ⟨10, false⟩)) jsZero) 2 = .fin ⟨5, false⟩
    show jsDivNat (.fin ⟨0 + 10 + 0, false⟩) 2 = .fin ⟨5, false⟩
    rw [jsDivNat, if_neg (by norm_num)]
    simp only [JsNum.fin.injEq, JsFin.mk.injEq]
    norm_num
  · have hfind : roleHeader ["Regular Payment"] "Regular Payment" = some "Regular Payment" := by
      decide
    simp only [computeTotals, hfind]
    have hp1 : parseCurrency (getCell [("Regular Payment", .str "$100.00")] "Regular Payment") =
        some ⟨(100 : ℚ) + 0 / 10 ^ 2, false⟩ := by
      have hcell : getCell [("Regular Payment", .str "$100.00")] "Regular Payment" =
          .str "$100.00" := by decide
      rw [hcell]
      have hn : jsNumberOfCleaned ("$100.00".toList.filter currencyKeep) =
          some ⟨(100 : ℚ) + 0 / 10 ^ 2, false⟩ := by
        rw [show "$100.00".toList.filter currencyKeep = '1' :: ['0', '0', '.', '0', '0']
          from by decide]
        exact jsNumberOfCleaned_eval_pos '1' ['0', '0', '.', '0', '0'] 100 0 2
          (by decide) (by decide) (by decide) (by decide) (by decide) (by decide) (by decide)
      rw [parseCurrency_str_eval _ _ (by decide) hn,
        if_neg (fun hcond => absurd hcond.1 (by decide))]
    have hp2 : parseCurrency (getCell [("Regular Payment", .str "abc")] "Regular Payment") =
        none := by decide
    rw [currencySum, List.foldl_cons, List.foldl_cons, List.foldl_cons, List.foldl_nil,
      hp1, hp2]
    have hcell3 : getCell [("Regular Payment", .num ⟨50, false⟩)] "Regular Payment" =
        .num ⟨50, false⟩ := by decide
    rw [hcell3]
    show 0 + jsOrZeroQ (some ⟨(100 : ℚ) + 0 / 10 ^ 2, false⟩) + jsOrZeroQ none +
        jsOrZeroQ (some ⟨50, false⟩) = 150
    rw [jsOrZeroQ, jsOrZeroQ, jsOrZeroQ]
    rw [if_neg (by norm_num), if_neg (by norm_num)]
    norm_num

/-- Witness for C2: the Interest Rate clause applied at a concrete one-row
table, and the Regular Payment clauses at concrete header lists. -/
theorem computeTotals_contract_witness :
    (computeTotals ["Interest Rate"] [[("Interest Rate", .str "10%")]]).portfolioYield =
      jsDivNat (([[("Interest Rate", .str "10%")]].map
        (fun row => jsOrZeroNum (parsePercent (getCell row "Interest Rate")))).foldl
          jsAdd jsZero) 1 ∧
    (computeTotals ["Borrower"] [[("Borrower", .str "A")]]).regularPaymentTotal = 0 := by
  constructor
  · exact computeTotals_contract.2.2.2.2.2.1 ["Interest Rate"]
      [[("Interest Rate", .str "10%")]] "Interest Rate" (by decide) (by norm_num)
  · exact computeTotals_contract.2.1 ["Borrower"] [[("Borrower", .str "A")]] (by decide)

/-- **C5 (counterexample).** The claim "`parsePercent` returns Unparseable
whenever the result is not a finite number" fails at the concrete input
`"Infinity%"`: `parseFloat` recognizes the `Infinity` keyword, `isNaN(Infinity)`
is `false`, and the non-finite value is returned rather than `null`. -/
theorem parsePercent_infinity_counterexample :
    parsePercent (.str "Infinity%") = some JsNum.inf ∧
    parsePercent (.str "Infinity%") ≠ none := by
  constructor
  · decide
  · decide

theorem parsePercent_nine_twenty : parsePercent (.str "9.20%") = some (.fin ⟨9.2, false⟩) := by
  have htrim : jsTrimList ("9.20%".toList.filter (· != '%')) = ['9', '.', '2', '0'] := by decide
  have hr : jsParseFloat ['9', '.', '2', '0'] =
      .fin ⟨(if false then -1 else 1) * ((digitsToNat ['9'] : ℚ) + fracVal ['2', '0']) *
              (10 : ℚ) ^ expOf [],
            false && (digitsToNat ['9'] == 0 && digitsToNat ['2', '0'] == 0)⟩ := rfl
  have hq : (if false then -1 else 1) * ((digitsToNat ['9'] : ℚ) + fracVal ['2', '0']) *
      (10 : ℚ) ^ expOf [] = 9.2 := by
    rw [show digitsToNat ['9'] = 9 from by decide, fracVal,
      show digitsToNat ['2', '0'] = 20 from by decide,
      show (['2', '0'] : List Char).length = 2 from rfl, show expOf [] = 0 from rfl]
    norm_num
  refine parsePercent_str_eval _ _ (by decide) ?_ (by simp)
  rw [htrim, hr]
  simp only [JsNum.fin.injEq, JsFin.mk.injEq]
  exact ⟨hq, by decide⟩

/-- **C5 (amended).** `parsePercent`'s contract, with the non-finite clause
corrected: numeric input passes through unchanged; non-strings and
whitespace-only strings are Unparseable; otherwise all `'%'` characters are
removed, the remainder is trimmed and parsed by `parseFloat`, and the result
is Unparseable exactly when `parseFloat` yields `NaN` — a result of positive
or negative `Infinity` is returned as such, not mapped to Unparseable; with
the three quoted examples. -/
theorem parsePercent_contract :
    (∀ f : JsFin, parsePercent (.num f) = some (.fin f)) ∧
    (parsePercent .null = none) ∧
    (∀ b, parsePercent (.bool b) = none) ∧
    (∀ s, wsOnly s = true → parsePercent (.str s) = none) ∧
    (∀ s, wsOnly s = false →
      jsParseFloat (jsTrimList (s.toList.filter (· != '%'))) = .nan →
      parsePercent (.str s) = none) ∧
    (∀ s x, wsOnly s = false →
      jsParseFloat (jsTrimList (s.toList.filter (· != '%'))) = x → x ≠ .nan →
      parsePercent (.str s) = some x) ∧
    parsePercent (.str "9.20%") = some (.fin ⟨9.2, false⟩) ∧
    parsePercent (.num ⟨8.5, false⟩) = some (.fin ⟨8.5, false⟩) ∧
    parsePercent (.str "  ") = none ∧
    parsePercent (.str "Infinity") = some JsNum.inf ∧
    parsePercent (.str "-Infinity") = some JsNum.negInf := by
  refine ⟨fun f => rfl, rfl, fun b => rfl, ?_, ?_,
    fun s x hws hx hnan => parsePercent_str_eval s x hws hx hnan,
    parsePercent_nine_twenty, rfl, by decide, by decide, by decide⟩
  · intro s hws
    simp [parsePercent, hws]
  · intro s hws hx
    simp only [parsePercent, hws, if_false, Bool.false_eq_true, hx]

/-- Witness for C5: the general non-`NaN` clause applied at `"Infinity"`, and
the whitespace clause applied at a tab-space string. -/
theorem parsePercent_contract_witness :
    parsePercent (.str "Infinity") = some JsNum.inf ∧
    parsePercent (.str " \t ") = none := by
  constructor
  · exact parsePercent_contract.2.2.2.2.2.1 "Infinity" JsNum.inf
      (by decide) (by decide) (by decide)
  · exact parsePercent_contract.2.2.2.1 " \t " (by decide)

theorem natFloorEval (x : ℚ) (c : ℕ) (h1 : (c : ℚ) ≤ x) (h2 : x < c + 1) : ⌊x⌋₊ = c := by
  have hx : 0 ≤ x := le_trans (by positivity) h1
  rw [Nat.floor_eq_iff hx]
  exact ⟨h1, h2⟩

theorem centsOf_eval_nonneg (q : ℚ) (c : ℕ) (h0 : 0 ≤ q)
    (h1 : (c : ℚ) ≤ q * 100 + 1 / 2) (h2 : q * 100 + 1 / 2 < c + 1) : centsOf q = c := by
  rw [centsOf, abs_of_nonneg h0]
  exact natFloorEval _ _ h1 h2

theorem centsOf_eval_nonpos (q : ℚ) (c : ℕ) (h0 : q ≤ 0)
    (h1 : (c : ℚ) ≤ -q * 100 + 1 / 2) (h2 : -q * 100 + 1 / 2 < c + 1) : centsOf q = c := by
  rw [centsOf, abs_of_nonpos h0]
  exact natFloorEval _ _ h1 h2

theorem negDisplay_of_neg (f : JsFin) (h : f.q < 0) : negDisplay f = true := by
  rw [negDisplay, if_pos h]

theorem negDisplay_of_nonneg (f : JsFin) (h : 0 ≤ f.q) : negDisplay f = f.negZero := by
  rw [negDisplay, if_neg (not_lt.mpr h)]

/-- Evaluation rule for the USD formatter once cents and sign are known. -/
theorem formatUSD_eval (f : JsFin) (c : ℕ) (b : Bool)
    (hc : centsOf f.q = c) (hb : negDisplay f = b) :
    formatUSD f = String.mk ((if b then ['-'] else []) ++
      '$' :: groupDigits (natDigits (c / 100)) ++ '.' :: pad2 (c % 100)) := by
  rw [formatUSD, usdChars, hc, hb]

/-- `formatCurrency` on a number is the USD formatter (numbers always parse). -/
theorem formatCurrency_num (f : JsFin) : formatCurrency (.num f) = formatUSD f := rfl

/-- `formatCurrency` on any successfully parsed value is the USD formatter. -/
theorem formatCurrency_of_parse (v : Value) (f : JsFin) (h : parseCurrency v = some f) :
    formatCurrency v = formatUSD f := by
  rw [formatCurrency, h]

/-- **C6.** `formatCurrency` is total and never throws: whenever
`parseCurrency` fails the original value is returned coerced to its string
representation (empty string for `null`/absent), and whenever it succeeds the
result is the `en-US` USD format with thousands separators, exactly two
decimals and a leading minus sign for negative values — with the quoted
`"N/A"` example, the `null`/boolean fallbacks, and concrete formatted
negative/rounded values. -/
theorem formatCurrency_total_contract :
    (∀ v f, parseCurrency v = some f → formatCurrency v = formatUSD f) ∧
    (∀ v, parseCurrency v = none → formatCurrency v = jsStringOrEmpty v) ∧
    formatCurrency (.str "N/A") = "N/A" ∧
    formatCurrency .null = "" ∧
    formatCurrency (.bool true) = "true" ∧
    formatCurrency (.bool false) = "false" ∧
    formatCurrency (.num ⟨-1234.5, false⟩) = "-$1,234.50" ∧
    formatCurrency (.num ⟨1.005, false⟩) = "$1.01" ∧
    formatCurrency (.str "(1)") = "-$1.00" := by
  refine ⟨fun v f h => formatCurrency_of_parse v f h, ?_, by decide, rfl, rfl, rfl, ?_, ?_, ?_⟩
  · intro v h
    rw [formatCurrency, h]
  · rw [formatCurrency_num,
      formatUSD_eval _ 123450 true
        (centsOf_eval_nonpos _ _ (by norm_num) (by norm_num) (by norm_num))
        (negDisplay_of_neg _ (by norm_num))]
    decide
  · rw [formatCurrency_num,
      formatUSD_eval _ 101 false
        (centsOf_eval_nonneg _ _ (by norm_num) (by norm_num) (by norm_num))
        (negDisplay_of_nonneg _ (by norm_num))]
    decide
  · have hn : jsNumberOfCleaned ("(1)".toList.filter currencyKeep) =
        some ⟨(1 : ℚ) + 0 / 10 ^ 0, false⟩ := by
      rw [show "(1)".toList.filter currencyKeep = '1' :: [] from by decide]
      exact jsNumberOfCleaned_eval_pos '1' [] 1 0 0
        (by decide) (by decide) (by decide) (by decide) (by decide) (by decide) (by decide)
    have hp : parseCurrency (.str "(1)") = some ⟨-((1 : ℚ) + 0 / 10 ^ 0), false⟩ := by
      rw [parseCurrency_str_eval _ _ (by decide) hn, if_pos ⟨by decide, by norm_num⟩]
    rw [formatCurrency_of_parse _ _ hp,
      formatUSD_eval _ 100 true
        (centsOf_eval_nonpos _ _ (by norm_num) (by norm_num) (by norm_num))
        (negDisplay_of_neg _ (by norm_num))]
    decide

/-- Witness for C6: the fallback clause applied at the unparseable concrete
input `".."`, and the success clause at the number `⟨3, false⟩`. -/
theorem formatCurrency_total_contract_witness :
    formatCurrency (.str "..") = jsStringOrEmpty (.str "..") ∧
    formatCurrency (.num ⟨3, false⟩) = formatUSD ⟨3, false⟩ := by
  constructor
  · exact formatCurrency_total_contract.2.1 (.str "..") (by decide)
  · exact formatCurrency_total_contract.1 (.num ⟨3, false⟩) ⟨3, false⟩ rfl

theorem titleAuxF_nil (f : ℕ) : titleAuxF f [] = [] := by
  cases f <;> rfl

theorem titleAuxF_fuel_irrel (f g : ℕ) (cs : List Char)
    (hf : cs.length ≤ f) (hg : cs.length ≤ g) : titleAuxF f cs = titleAuxF g cs := by
  induction f generalizing g cs with
  | zero =>
    rw [Nat.le_zero, List.length_eq_zero] at hf
    subst hf
    rw [titleAuxF_nil, titleAuxF_nil]
  | succ f ih =>
    cases cs with
    | nil => rw [titleAuxF_nil, titleAuxF_nil]
    | cons c rest =>
      simp only [List.length_cons, Nat.succ_le_succ_iff] at hf
      cases g with
      | zero => simp at hg
      | succ g =>
        simp only [List.length_cons, Nat.succ_le_succ_iff] at hg
        simp only [titleAuxF]
        by_cases hw : isWordChar c = true
        · simp only [hw, if_true]
          rw [ih g _ (le_trans (dropWhile_length_le _ rest) hf)
            (le_trans (dropWhile_length_le _ rest) hg)]
        · simp only [hw, if_false, Bool.false_eq_true]
          rw [ih g rest hf hg]

theorem titleAuxF_eq_titleAux (f : ℕ) (cs : List Char) (h : cs.length ≤ f) :
    titleAuxF f cs = titleAux cs :=
  titleAuxF_fuel_irrel f cs.length cs h le_rfl

theorem stringMk_toList (s : String) : String.mk s.toList = s := by
  rcases s with ⟨d⟩
  rfl

/-- Unfolding rule for a scan position at a word character: the match starts
here, runs through the non-whitespace characters, upper-cases the head and
lower-cases the remainder of the match. -/
theorem titleAux_word (c : Char) (rest : List Char) (hw : isWordChar c = true) :
    titleAux (c :: rest) =
      c.toUpper :: ((rest.takeWhile (fun x => !jsWS x)).map Char.toLower ++
        titleAux (rest.dropWhile (fun x => !jsWS x))) := by
  rw [titleAux]
  simp only [List.length_cons, titleAuxF, hw, if_true]
  rw [titleAuxF_eq_titleAux rest.length _ (dropWhile_length_le _ rest)]

/-- Unfolding rule for a scan position at a non-word character: the character
passes through unchanged. -/
theorem titleAux_nonword (c : Char) (rest : List Char) (hw : isWordChar c = false) :
    titleAux (c :: rest) = c :: titleAux rest := by
  rw [titleAux]
  simp only [List.length_cons, titleAuxF, hw, if_false, Bool.false_eq_true]
  rw [titleAuxF_eq_titleAux rest.length rest le_rfl]

theorem titleAux_all_nonword (cs : List Char) (h : ∀ c ∈ cs, isWordChar c = false) :
    titleAux cs = cs := by
  induction cs with
  | nil => rfl
  | cons c rest ih =>
    rw [titleAux_nonword c rest (h c (by simp)), ih (fun x hx => h x (by simp [hx]))]

/-- **C7 (counterexample).** The claim predicts that the whole
whitespace-delimited token `"(loan)"` has only its very first character
capitalized — i.e. that `toTitleCase "(loan)" = "(loan)"` (capitalizing `'('`
is the identity and the remainder is lower-cased).  The code's regex `\w\S*`
instead starts its match at the first word character, producing `"(Loan)"`. -/
theorem toTitleCase_punct_counterexample :
    toTitleCase "(loan)" = "(Loan)" ∧ toTitleCase "(loan)" ≠ "(loan)" := by
  constructor
  · decide
  · decide

/-- **C7 (amended).** `toTitleCase` capitalizes, within each maximal
whitespace-delimited token, the first WORD character (ASCII letter, digit or
underscore) — not the token's very first character — and lower-cases the rest
of the token from that point on; characters scanned before a word character
pass through unchanged, so a token with no word character is unchanged; empty
input yields the empty string; with the quoted examples. -/
theorem toTitleCase_contract :
    toTitleCase "" = "" ∧
    toTitleCase "loan balance" = "Loan Balance" ∧
    toTitleCase "well-known words" = "Well-known Words" ∧
    toTitleCase "(loan)" = "(Loan)" ∧
    toTitleCase "-a" = "-A" ∧
    toTitleCase "--" = "--" ∧
    (∀ s, (∀ c ∈ s.toList, isWordChar c = false) → toTitleCase s = s) ∧
    (∀ c rest, isWordChar c = true →
      titleAux (c :: rest) =
        c.toUpper :: ((rest.takeWhile (fun x => !jsWS x)).map Char.toLower ++
          titleAux (rest.dropWhile (fun x => !jsWS x)))) ∧
    (∀ c rest, isWordChar c = false → titleAux (c :: rest) = c :: titleAux rest) := by
  refine ⟨rfl, by decide, by decide, by decide, by decide, by decide, ?_,
    fun c rest hw => titleAux_word c rest hw, fun c rest hw => titleAux_nonword c rest hw⟩
  intro s hs
  by_cases hemp : s = ""
  · rw [hemp]
    rfl
  · rw [toTitleCase, if_neg hemp, titleAux_all_nonword s.toList hs, stringMk_toList]

/-- Witness for C7: the no-word-character clause applied at `"++"`, and the
word/non-word unfolding rules at concrete characters. -/
theorem toTitleCase_contract_witness :
    toTitleCase "++" = "++" ∧
    titleAux ['x'] = ['x'.toUpper] ∧
    titleAux ['-', 'a'] = '-' :: titleAux ['a'] := by
  refine ⟨toTitleCase_contract.2.2.2.2.2.2.1 "++" (by decide), ?_, ?_⟩
  · have h := toTitleCase_contract.2.2.2.2.2.2.2.1 'x' [] (by decide)
    simpa using h
  · exact toTitleCase_contract.2.2.2.2.2.2.2.2 '-' ['a'] (by decide)

/-- **C9.** The interactive preview renders exactly `min(n, 50)` body rows and
shows the total-count indicator exactly when `n > 50`, while the PDF body has
no cap and always contains all `n` rows; with the 75-row worked example. -/
theorem preview_cap_contract :
    (∀ headers data, (previewBodyRows headers data).length = min data.length 50) ∧
    (∀ headers data, (pdfBodyRows headers data).length = data.length) ∧
    (∀ data : List Row, 50 < data.length →
      previewIndicator data =
        some ("Mostrando las primeras 50 filas de " ++ natStr data.length ++ " totales.")) ∧
    (∀ data : List Row, data.length ≤ 50 → previewIndicator data = none) ∧
    (previewBodyRows ["H"] (List.replicate 75 [])).length = 50 ∧
    previewIndicator (List.replicate 75 []) =
      some "Mostrando las primeras 50 filas de 75 totales." ∧
    (pdfBodyRows ["H"] (List.replicate 75 [])).length = 75 := by
  refine ⟨?_, ?_, ?_, ?_, by decide, by decide, by decide⟩
  · intro headers data
    simp [previewBodyRows, Nat.min_comm]
  · intro headers data
    simp [pdfBodyRows]
  · intro data h
    rw [previewIndicator, if_pos h]
  · intro data h
    rw [previewIndicator, if_neg (not_lt.mpr h)]

/-- Witness for C9: the indicator clauses applied at concrete 51-row and
3-row tables. -/
theorem preview_cap_contract_witness :
    previewIndicator (List.replicate 51 ([] : Row)) =
      some ("Mostrando las primeras 50 filas de " ++
        natStr (List.replicate 51 ([] : Row)).length ++ " totales.") ∧
    previewIndicator (List.replicate 3 ([] : Row)) = none := by
  constructor
  · exact preview_cap_contract.2.2.1 (List.replicate 51 []) (by norm_num)
  · exact preview_cap_contract.2.2.2.1 (List.replicate 3 []) (by norm_num)

theorem getD_map {α β : Type} (f : α → β) (l : List α) (i : ℕ) (d : α) (d2 : β)
    (h : i < l.length) : (l.map f).getD i d2 = f (l.getD i d) := by
  rw [List.getD_eq_getElem?_getD, List.getElem?_map, List.getElem?_eq_getElem h]
  simp only [Option.map_some', Option.getD_some]
  rw [List.getD_eq_getElem l d h]

theorem formatCurrency_two_hundred_str : formatCurrency (.str "$200.00") = "$200.00" := by
  have hn : jsNumberOfCleaned ("$200.00".toList.filter currencyKeep) =
      some ⟨(200 : ℚ) + 0 / 10 ^ 2, false⟩ := by
    rw [show "$200.00".toList.filter currencyKeep = '2' :: ['0', '0', '.', '0', '0']
      from by decide]
    exact jsNumberOfCleaned_eval_pos '2' ['0', '0', '.', '0', '0'] 200 0 2
      (by decide) (by decide) (by decide) (by decide) (by decide) (by decide) (by decide)
  have hp : parseCurrency (.str "$200.00") = some ⟨(200 : ℚ) + 0 / 10 ^ 2, false⟩ := by
    rw [parseCurrency_str_eval _ _ (by decide) hn,
      if_neg (fun hcond => absurd hcond.1 (by decide))]
  rw [formatCurrency_of_parse _ _ hp,
    formatUSD_eval _ 20000 false
      (centsOf_eval_nonneg _ _ (by norm_num) (by norm_num) (by norm_num))
      (negDisplay_of_nonneg _ (by norm_num))]
  decide

/-- **C8.** The projected body's columns follow the selected header list's
order exactly (cell `(i, j)` is the `j`-th SELECTED header's cell of the
`i`-th original row), rows keep the original row order with no sorting,
filtering or deduplication, and the worked reordering example: selecting
`["Loan Balance", "Borrower Name"]` from a row stored in the opposite natural
order projects the columns in the selected order, identically in the PDF and
the preview path. -/
theorem projection_order_contract :
    (∀ headers data, (pdfBodyRows headers data).length = data.length) ∧
    (∀ headers data i, i < data.length →
      ((pdfBodyRows headers data).getD i []).length = headers.length) ∧
    (∀ headers data i j, i < data.length → j < headers.length →
      ((pdfBodyRows headers data).getD i []).getD j "" =
        pdfCellString (data.getD i []) (headers.getD j "")) ∧
    pdfBodyRows ["Loan Balance", "Borrower Name"]
        [[("Borrower Name", .str "Alice"), ("Loan Balance", .str "$200.00")]] =
      [["$200.00", "Alice"]] ∧
    previewBodyRows ["Loan Balance", "Borrower Name"]
        [[("Borrower Name", .str "Alice"), ("Loan Balance", .str "$200.00")]] =
      [["$200.00", "Alice"]] := by
  have hcell : pdfCellString [("Borrower Name", .str "Alice"), ("Loan Balance", .str "$200.00")]
      "Loan Balance" = "$200.00" := by
    rw [pdfCellString, pdfCellValue, if_pos (by decide),
      show getCell [("Borrower Name", .str "Alice"), ("Loan Balance", .str "$200.00")]
        "Loan Balance" = .str "$200.00" from by decide, formatCurrency_two_hundred_str]
    rfl
  have hprevcell : previewCell
      [("Borrower Name", .str "Alice"), ("Loan Balance", .str "$200.00")] "Loan Balance" =
      "$200.00" := by
    rw [previewCell, if_pos (by decide),
      show getCell [("Borrower Name", .str "Alice"), ("Loan Balance", .str "$200.00")]
        "Loan Balance" = .str "$200.00" from by decide, formatCurrency_two_hundred_str]
  refine ⟨?_, ?_, ?_, ?_, ?_⟩
  · intro headers data
    simp [pdfBodyRows]
  · intro headers data i hi
    rw [pdfBodyRows, getD_map _ data i [] [] hi]
    simp
  · intro headers data i j hi hj
    rw [pdfBodyRows, getD_map _ data i [] [] hi, getD_map _ headers j "" "" hj]
  · rw [pdfBodyRows, List.map_cons, List.map_nil, List.map_cons, List.map_cons, List.map_nil,
      hcell, show pdfCellString [("Borrower Name", .str "Alice"),
        ("Loan Balance", .str "$200.00")] "Borrower Name" = "Alice" from by decide]
  · rw [previewBodyRows, show ([[("Borrower Name", .str "Alice"),
      ("Loan Balance", .str "$200.00")]] : List Row).take 50 =
        [[("Borrower Name", .str "Alice"), ("Loan Balance", .str "$200.00")]] from rfl,
      List.map_cons, List.map_nil, List.map_cons, List.map_cons, List.map_nil, hprevcell,
      show previewCell [("Borrower Name", .str "Alice"), ("Loan Balance", .str "$200.00")]
        "Borrower Name" = "Alice" from by decide]

/-- Witness for C8: the positional clauses applied at a concrete
two-column/one-row table at position `(0, 1)`. -/
theorem projection_order_contract_witness :
    ((pdfBodyRows ["Loan Balance", "Borrower Name"]
        [[("Borrower Name", .str "Alice")]]).getD 0 []).getD 1 "" =
      pdfCellString (([[("Borrower Name", .str "Alice")]] : List Row).getD 0 [])
        ((["Loan Balance", "Borrower Name"] : List String).getD 1 "") ∧
    ((pdfBodyRows ["Loan Balance", "Borrower Name"]
        [[("Borrower Name", .str "Alice")]]).getD 0 []).length = 2 := by
  constructor
  · exact projection_order_contract.2.2.1 ["Loan Balance", "Borrower Name"]
      [[("Borrower Name", .str "Alice")]] 0 1 (by norm_num) (by norm_num)
  · exact projection_order_contract.2.1 ["Loan Balance", "Borrower Name"]
      [[("Borrower Name", .str "Alice")]] 0 (by norm_num)

theorem getD_range (n i : ℕ) (h : i < n) : (List.range n).getD i 0 = i := by
  rw [List.getD_eq_getElem (List.range n) 0 (by simpa using h)]
  simp

/-- One footer position of the preview, exposed through the map over indices. -/
theorem previewFooterCells_getD (headers : List String) (data : List Row) (i : ℕ)
    (h : i < headers.length) :
    (previewFooterCells headers data).getD i "" =
      (if i = 0 then "Totals"
       else if i = 1 ∧ (headers.any (fun h => lowerStr h == "interest rate")) = true then
         yieldText (computeTotals headers data)
       else if roleIndex headers "Regular Payment" = some i then
         formatCurrency (.num ⟨(computeTotals headers data).regularPaymentTotal, false⟩)
       else if roleIndex headers "Loan Balance" = some i then
         formatCurrency (.num ⟨(computeTotals headers data).loanBalanceTotal, false⟩)
       else "") := by
  rw [previewFooterCells, getD_map _ (List.range headers.length) i 0 ""
    (by simpa using h), getD_range _ _ h]

/-- **C3.** The preview's rendered footer row: one cell per selected column;
the first displayed column holds the literal `"Totals"`; the second column,
when it exists and the Interest Rate role is selected, holds the composed
yield/count string; the column position matching the Regular Payment role (if
selected) holds its formatted total and likewise for Loan Balance; every other
footer cell is empty — earlier rules taking precedence, all computed against
the currently selected header list.  In particular, deselecting Regular
Payment while keeping Loan Balance yields a footer with the Loan Balance total
at its position and no Regular Payment total anywhere. -/
theorem previewFooter_contract :
    (∀ headers data, (previewFooterCells headers data).length = headers.length) ∧
    (∀ headers data, headers ≠ ([] : List String) →
      (previewFooterCells headers data).getD 0 "" = "Totals") ∧
    (∀ headers data i, 0 < i → i < headers.length →
      (previewFooterCells headers data).getD i "" =
        (if i = 1 ∧ (headers.any (fun h => lowerStr h == "interest rate")) = true then
           yieldText (computeTotals headers data)
         else if roleIndex headers "Regular Payment" = some i then
           formatCurrency (.num ⟨(computeTotals headers data).regularPaymentTotal, false⟩)
         else if roleIndex headers "Loan Balance" = some i then
           formatCurrency (.num ⟨(computeTotals headers data).loanBalanceTotal, false⟩)
         else "")) ∧
    previewFooterCells ["Borrower Name", "Loan Balance"]
        [[("Borrower Name", .str "Alice"), ("Regular Payment", .str "$100.00"),
          ("Loan Balance", .str "$200.00")]] = ["Totals", "$200.00"] ∧
    "$100.00" ∉ previewFooterCells ["Borrower Name", "Loan Balance"]
        [[("Borrower Name", .str "Alice"), ("Regular Payment", .str "$100.00"),
          ("Loan Balance", .str "$200.00")]] := by
  have hscene : previewFooterCells ["Borrower Name", "Loan Balance"]
      [[("Borrower Name", .str "Alice"), ("Regular Payment", .str "$100.00"),
        ("Loan Balance", .str "$200.00")]] = ["Totals", "$200.00"] := by
    have hlb : (computeTotals ["Borrower Name", "Loan Balance"]
        [[("Borrower Name", .str "Alice"), ("Regular Payment", .str "$100.00"),
          ("Loan Balance", .str "$200.00")]]).loanBalanceTotal =
        0 + ((200 : ℚ) + 0 / 10 ^ 2) := by
      have hfind : roleHeader ["Borrower Name", "Loan Balance"] "Loan Balance" =
          some "Loan Balance" := by decide
      simp only [computeTotals, hfind]
      have hn : jsNumberOfCleaned ("$200.00".toList.filter currencyKeep) =
          some ⟨(200 : ℚ) + 0 / 10 ^ 2, false⟩ := by
        rw [show "$200.00".toList.filter currencyKeep = '2' :: ['0', '0', '.', '0', '0']
          from by decide]
        exact jsNumberOfCleaned_eval_pos '2' ['0', '0', '.', '0', '0'] 200 0 2
          (by decide) (by decide) (by decide) (by decide) (by decide) (by decide) (by decide)
      have hp : parseCurrency (getCell [("Borrower Name", .str "Alice"),
          ("Regular Payment", .str "$100.00"), ("Loan Balance", .str "$200.00")]
          "Loan Balance") = some ⟨(200 : ℚ) + 0 / 10 ^ 2, false⟩ := by
        rw [show getCell [("Borrower Name", .str "Alice"),
          ("Regular Payment", .str "$100.00"), ("Loan Balance", .str "$200.00")]
          "Loan Balance" = .str "$200.00" from by decide]
        rw [parseCurrency_str_eval _ _ (by decide) hn,
          if_neg (fun hcond => absurd hcond.1 (by decide))]
      rw [currencySum, List.foldl_cons, List.foldl_nil, hp, jsOrZeroQ,
        if_neg (by norm_num)]
    simp only [previewFooterCells]
    rw [show List.range (["Borrower Name", "Loan Balance"] : List String).length = [0, 1]
      from rfl, List.map_cons, List.map_cons, List.map_nil]
    rw [if_pos rfl, if_neg (by norm_num), if_neg (by decide), if_neg (by decide),
      if_pos (by decide), hlb,
      formatCurrency_num,
      formatUSD_eval _ 20000 false
        (centsOf_eval_nonneg _ _ (by norm_num) (by norm_num) (by norm_num))
        (negDisplay_of_nonneg _ (by norm_num))]
    decide
  refine ⟨?_, ?_, ?_, hscene, ?_⟩
  · intro headers data
    simp [previewFooterCells]
  · intro headers data hne
    have hlen : 0 < headers.length := List.length_pos.mpr hne
    rw [previewFooterCells_getD headers data 0 hlen, if_pos rfl]
  · intro headers data i h0 hlen
    rw [previewFooterCells_getD headers data i hlen, if_neg (Nat.pos_iff_ne_zero.mp h0)]
  · rw [hscene]
    decide

/-- Witness for C3: the label clause and the positional cascade clause applied
at the concrete selection `["A", "B"]` with no data rows. -/
theorem previewFooter_contract_witness :
    (previewFooterCells ["A", "B"] []).getD 0 "" = "Totals" ∧
    (previewFooterCells ["A", "B"] []).getD 1 "" =
      (if 1 = 1 ∧ ((["A", "B"] : List String).any
          (fun h => lowerStr h == "interest rate")) = true then
         yieldText (computeTotals ["A", "B"] [])
       else if roleIndex ["A", "B"] "Regular Payment" = some 1 then
         formatCurrency (.num ⟨(computeTotals ["A", "B"] []).regularPaymentTotal, false⟩)
       else if roleIndex ["A", "B"] "Loan Balance" = some 1 then
         formatCurrency (.num ⟨(computeTotals ["A", "B"] []).loanBalanceTotal, false⟩)
       else "") := by
  constructor
  · exact previewFooter_contract.2.1 ["A", "B"] [] (by decide)
  · exact previewFooter_contract.2.2.1 ["A", "B"] [] 1 (by norm_num) (by norm_num)

theorem find?_isSome_eq_any {α : Type} (p : α → Bool) (l : List α) :
    (l.find? p).isSome = l.any p := by
  induction l with
  | nil => rfl
  | cons x xs ih =>
    by_cases hx : p x = true
    · simp [List.find?_cons, hx]
    · simp only [List.find?_cons, hx, Bool.false_eq_true, if_false, List.any_cons,
        Bool.false_or]
      exact ih

theorem findIdx?_found {α : Type} (p : α → Bool) (l : List α) (s i : ℕ) (d : α)
    (h : l.findIdx? p s = some i) : s ≤ i ∧ p (l.getD (i - s) d) = true := by
  induction l generalizing s with
  | nil => simp [List.findIdx?] at h
  | cons x xs ih =>
    rw [List.findIdx?] at h
    by_cases hx : p x = true
    · rw [if_pos hx, Option.some.injEq] at h
      subst h
      simpa using hx
    · rw [if_neg hx] at h
      obtain ⟨hs, hp⟩ := ih (s + 1) h
      refine ⟨by omega, ?_⟩
      have hstep : i - s = (i - (s + 1)) + 1 := by omega
      rw [hstep]
      simpa using hp

/-- A successful role lookup means the header at that display position
lower-cases to the role name. -/
theorem roleIndex_some (headers : List String) (t : String) (i : ℕ)
    (h : roleIndex headers t = some i) : lowerStr (headers.getD i "") = lowerStr t := by
  obtain ⟨-, hp⟩ := findIdx?_found (fun h => lowerStr h == lowerStr t) headers 0 i "" h
  simpa using hp

/-- The Regular Payment and Loan Balance roles can never resolve to the same
display position. -/
theorem roleIndex_rp_lb_ne (headers : List String) (i : ℕ)
    (hrp : roleIndex headers "Regular Payment" = some i) :
    roleIndex headers "Loan Balance" ≠ some i := by
  intro hlb
  have h1 := roleIndex_some headers "Regular Payment" i hrp
  have h2 := roleIndex_some headers "Loan Balance" i hlb
  rw [h1] at h2
  revert h2
  decide

theorem getD_set (l : List String) (j i : ℕ) (v : String) (hi : i < l.length) :
    (l.set j v).getD i "" = if j = i then v else l.getD i "" := by
  by_cases hji : j = i
  · subst hji
    rw [if_pos rfl, List.getD_eq_getElem?_getD, List.getElem?_set_self (by exact hi)]
    rfl
  · rw [if_neg hji, List.getD_eq_getElem?_getD, List.getElem?_set_ne hji,
      List.getD_eq_getElem?_getD]

theorem getD_replicate (n i : ℕ) (v : String) :
    (List.replicate n v).getD i v = v := by
  rw [List.getD_eq_getElem?_getD, List.getElem?_replicate]
  split <;> rfl

/-- The target of the preview's Interest Rate `some(...)` check coincides with
the PDF's `find`-based presence check. -/
theorem hasIR_bridge (headers : List String) :
    (roleHeader headers "Interest Rate").isSome =
      headers.any (fun h => lowerStr h == "interest rate") := by
  rw [roleHeader, find?_isSome_eq_any]
  have hfun : (fun h => lowerStr h == lowerStr "Interest Rate") =
      (fun h => lowerStr h == "interest rate") := by
    funext x
    rw [show lowerStr "Interest Rate" = "interest rate" from by decide]
  rw [hfun]

theorem pdfFooterCells_length (headers : List String) (data : List Row) :
    (pdfFooterCells headers data).length = headers.length := by
  simp only [pdfFooterCells]
  rcases hlb : roleIndex headers "Loan Balance" with _ | k <;>
    rcases hrp : roleIndex headers "Regular Payment" with _ | m <;>
      simp only [hlb, hrp] <;> split_ifs <;> simp

theorem previewFooterCells_length (headers : List String) (data : List Row) :
    (previewFooterCells headers data).length = headers.length := by
  simp [previewFooterCells]

/-- The `"Totals"`-seeded base row of the PDF footer, per position. -/
theorem pdfFooterBase_getD (n i : ℕ) (h : i < n) :
    ((List.replicate n "").set 0 "Totals").getD i "" =
      (if i = 0 then "Totals" else "") := by
  rw [getD_set _ _ _ _ (by simpa using h)]
  by_cases hj0 : i = 0
  · rw [if_pos (hj0.symm), if_pos hj0]
  · rw [if_neg (fun hc => hj0 hc.symm), if_neg hj0, getD_replicate]

/-- The PDF footer after the optional yield assignment, per position. -/
theorem pdfFooterYield_getD (headers : List String) (data : List Row) (i : ℕ)
    (h : i < headers.length) :
    (if 1 < headers.length ∧ (roleHeader headers "Interest Rate").isSome = true then
        ((List.replicate headers.length "").set 0 "Totals").set 1
          (yieldText (computeTotals headers data))
      else (List.replicate headers.length "").set 0 "Totals").getD i "" =
      (if i = 1 ∧ 1 < headers.length ∧
          (roleHeader headers "Interest Rate").isSome = true then
        yieldText (computeTotals headers data)
      else if i = 0 then "Totals"
      else "") := by
  by_cases hc2 : 1 < headers.length ∧ (roleHeader headers "Interest Rate").isSome = true
  · rw [if_pos hc2, getD_set _ _ _ _ (by simpa using h)]
    by_cases hi1 : i = 1
    · rw [if_pos (hi1.symm), if_pos ⟨hi1, hc2⟩]
    · rw [if_neg (fun hc => hi1 hc.symm), if_neg (fun hc => hi1 hc.1),
        pdfFooterBase_getD _ _ h]
  · rw [if_neg hc2, if_neg (fun hc => hc2 hc.2), pdfFooterBase_getD _ _ h]

/-- One footer position of the PDF footer row: the in-place assignments give
the currency totals priority over the `"Totals"` label and the yield text
(later `footerRow[...] = ...` writes overwrite earlier ones). -/
theorem pdfFooterCells_getD (headers : List String) (data : List Row) (i : ℕ)
    (h : i < headers.length) :
    (pdfFooterCells headers data).getD i "" =
      (if roleIndex headers "Loan Balance" = some i then
         formatCurrency (.num ⟨(computeTotals headers data).loanBalanceTotal, false⟩)
       else if roleIndex headers "Regular Payment" = some i then
         formatCurrency (.num ⟨(computeTotals headers data).regularPaymentTotal, false⟩)
       else if i = 1 ∧ 1 < headers.length ∧
           (roleHeader headers "Interest Rate").isSome = true then
         yieldText (computeTotals headers data)
       else if i = 0 then "Totals"
       else "") := by
  have hlen0 : 0 < headers.length := Nat.lt_of_le_of_lt (Nat.zero_le i) h
  simp only [pdfFooterCells, if_pos hlen0]
  rcases hlb : roleIndex headers "Loan Balance" with _ | k <;>
    rcases hrp : roleIndex headers "Regular Payment" with _ | m <;>
      simp only [hlb, hrp]
  · rw [if_neg (fun hcon => Option.noConfusion hcon),
      if_neg (fun hcon => Option.noConfusion hcon)]
    exact pdfFooterYield_getD headers data i h
  · by_cases hmi : m = i
    · subst hmi
      rw [getD_set _ _ _ _ (by split <;> simp [h]),
        if_pos rfl, if_neg (fun hcon => Option.noConfusion hcon), if_pos rfl]
    · rw [getD_set _ _ _ _ (by split <;> simp [h]), if_neg hmi,
        if_neg (fun hcon => Option.noConfusion hcon),
        if_neg (fun hcon => hmi (Option.some.inj hcon)),
        pdfFooterYield_getD headers data i h]
  · by_cases hki : k = i
    · subst hki
      rw [getD_set _ _ _ _ (by split <;> simp [h]), if_pos rfl, if_pos rfl]
    · rw [getD_set _ _ _ _ (by split <;> simp [h]), if_neg hki,
        if_neg (fun hcon => hki (Option.some.inj hcon)),
        if_neg (fun hcon => Option.noConfusion hcon),
        pdfFooterYield_getD headers data i h]
  · by_cases hki : k = i
    · subst hki
      rw [getD_set _ _ _ _ (by split <;> simp [h]), if_pos rfl, if_pos rfl]
    · rw [getD_set _ _ _ _ (by split <;> simp [h]), if_neg hki,
        if_neg (fun hcon => hki (Option.some.inj hcon))]
      by_cases hmi : m = i
      · subst hmi
        rw [getD_set _ _ _ _ (by split <;> simp [h]), if_pos rfl, if_pos rfl]
      · rw [getD_set _ _ _ _ (by split <;> simp [h]), if_neg hmi,
          if_neg (fun hcon => hmi (Option.some.inj hcon)),
          pdfFooterYield_getD headers data i h]

/-- A preview body cell and the corresponding PDF body cell display the same
string for every raw cell value. -/
theorem previewCell_eq_pdfCellString (row : Row) (h : String) :
    previewCell row h = pdfCellString row h := by
  rw [previewCell, pdfCellString, pdfCellValue]
  by_cases hc : isCurrencyHeader h = true
  · rw [if_pos hc, if_pos hc]
    rfl
  · rw [if_neg hc, if_neg hc]
    cases getCell row h <;> rfl

/-- **C4 (counterexample).** The footer rows of the preview and the PDF export
disagree position-by-position: with the single selected header
`"Regular Payment"` and no rows, the preview's branch cascade renders
`["Totals"]` while the PDF's in-place assignments overwrite the `"Totals"`
label with the formatted total `["$0.00"]`. -/
theorem pdf_preview_footer_mismatch :
    previewFooterCells ["Regular Payment"] [] = ["Totals"] ∧
    pdfFooterCells ["Regular Payment"] [] = ["$0.00"] ∧
    pdfFooterCells ["Regular Payment"] [] ≠ previewFooterCells ["Regular Payment"] [] := by
  have hprev : previewFooterCells ["Regular Payment"] [] = ["Totals"] := by decide
  have h0 : formatCurrency (.num ⟨(0 : ℚ), false⟩) = "$0.00" := by
    rw [formatCurrency_num,
      formatUSD_eval _ 0 false
        (centsOf_eval_nonneg _ _ le_rfl (by norm_num) (by norm_num))
        (negDisplay_of_nonneg _ le_rfl)]
    decide
  have hpdf : pdfFooterCells ["Regular Payment"] [] =
      [formatCurrency (.num ⟨(computeTotals ["Regular Payment"] []).regularPaymentTotal,
        false⟩)] := rfl
  have htot : (computeTotals ["Regular Payment"] []).regularPaymentTotal = (0 : ℚ) := rfl
  have hpdf2 : pdfFooterCells ["Regular Payment"] [] = ["$0.00"] := by
    rw [hpdf, htot, h0]
  refine ⟨hprev, hpdf2, ?_⟩
  rw [hprev, hpdf2]
  decide

/-- **C4 (amended).** The PDF export path and the preview path produce the
same cell contents: the preview body is exactly the first 50 rows of the PDF
body (cell-by-cell, currency formatting included), the right-aligned column
sets coincide, and the footers agree position-by-position PROVIDED no currency
role (Regular Payment or Loan Balance) sits at display position 0, nor at
display position 1 while the Interest Rate role is selected; at such
collision positions the preview's cascade keeps the `"Totals"` label / yield
text while the PDF's assignments overwrite them with the currency totals. -/
theorem pdf_preview_content_agree :
    (∀ headers data, previewBodyRows headers data = (pdfBodyRows headers data).take 50) ∧
    (∀ headers data i j, i < min data.length 50 → j < headers.length →
      ((previewBodyRows headers data).getD i []).getD j "" =
        ((pdfBodyRows headers data).getD i []).getD j "") ∧
    (∀ headers, pdfAlignFlags headers = previewAlignFlags headers) ∧
    (∀ headers data,
      roleIndex headers "Regular Payment" ≠ some 0 →
      roleIndex headers "Loan Balance" ≠ some 0 →
      ((roleHeader headers "Interest Rate").isSome = true →
        roleIndex headers "Regular Payment" ≠ some 1 ∧
        roleIndex headers "Loan Balance" ≠ some 1) →
      pdfFooterCells headers data = previewFooterCells headers data) := by
  refine ⟨?_, ?_, fun headers => rfl, ?_⟩
  · intro headers data
    have hcellfun : (fun row => headers.map (previewCell row)) =
        (fun row => headers.map (pdfCellString row)) := by
      funext row
      rw [funext fun hh => previewCell_eq_pdfCellString row hh]
    rw [previewBodyRows, pdfBodyRows, List.map_take, hcellfun]
  · intro headers data i j hi hj
    have hidata : i < data.length := lt_of_lt_of_le hi (Nat.min_le_left _ _)
    have hitake : i < (data.take 50).length := by
      simp only [List.length_take]
      omega
    rw [previewBodyRows, pdfBodyRows, getD_map _ (data.take 50) i [] [] hitake,
      getD_map _ data i [] [] hidata, getD_map _ headers j "" "" hj,
      getD_map _ headers j "" "" hj, previewCell_eq_pdfCellString]
    have htake : (data.take 50).getD i [] = data.getD i [] := by
      rw [List.getD_eq_getElem _ _ hitake, List.getD_eq_getElem _ _ hidata]
      simp [List.get_eq_getElem]
    rw [htake]
  · intro headers data hrp0 hlb0 hir
    apply List.ext_get
    · rw [pdfFooterCells_length, previewFooterCells_length]
    · intro i h1 h2
      have hi : i < headers.length := by rwa [pdfFooterCells_length] at h1
      rw [List.get_eq_getElem, List.get_eq_getElem,
        ← List.getD_eq_getElem (pdfFooterCells headers data) "" h1,
        ← List.getD_eq_getElem (previewFooterCells headers data) "" h2,
        pdfFooterCells_getD headers data i hi, previewFooterCells_getD headers data i hi]
      have hbridge := hasIR_bridge headers
      by_cases hi0 : i = 0
      · subst hi0
        conv_rhs => rw [if_pos rfl]
        conv_lhs => rw [if_neg hlb0, if_neg hrp0, if_neg (show ¬((0 : ℕ) = 1 ∧
          1 < headers.length ∧ (roleHeader headers "Interest Rate").isSome = true)
          from by simp), if_pos rfl]
      · by_cases hy : i = 1 ∧
            (headers.any (fun h => lowerStr h == "interest rate")) = true
        · have hirT : (roleHeader headers "Interest Rate").isSome = true := by
            rw [hbridge]
            exact hy.2
          obtain ⟨hrp1, hlb1⟩ := hir hirT
          conv_rhs => rw [if_neg hi0, if_pos hy]
          conv_lhs => rw [if_neg (show roleIndex headers "Loan Balance" ≠ some i from by
              rw [hy.1]; exact hlb1),
            if_neg (show roleIndex headers "Regular Payment" ≠ some i from by
              rw [hy.1]; exact hrp1),
            if_pos ⟨hy.1, by omega, hirT⟩]
        · by_cases hlbi : roleIndex headers "Loan Balance" = some i
          · have hrpi : roleIndex headers "Regular Payment" ≠ some i := by
              intro hrpi
              exact roleIndex_rp_lb_ne headers i hrpi hlbi
            conv_rhs => rw [if_neg hi0, if_neg hy, if_neg hrpi, if_pos hlbi]
            conv_lhs => rw [if_pos hlbi]
          · by_cases hrpi : roleIndex headers "Regular Payment" = some i
            · conv_rhs => rw [if_neg hi0, if_neg hy, if_pos hrpi]
              conv_lhs => rw [if_neg hlbi, if_pos hrpi]
            · conv_rhs => rw [if_neg hi0, if_neg hy, if_neg hrpi, if_neg hlbi]
              conv_lhs => rw [if_neg hlbi, if_neg hrpi,
                if_neg (show ¬(i = 1 ∧ 1 < headers.length ∧
                    (roleHeader headers "Interest Rate").isSome = true) from
                  fun hcon => hy ⟨hcon.1, by rw [← hbridge]; exact hcon.2.2⟩),
                if_neg hi0]

/-- Witness for C4: the footer-agreement clause applied at the concrete
selection `["Borrower", "Interest Rate", "Regular Payment"]` (currency roles
away from positions 0 and 1) with no data rows. -/
theorem pdf_preview_content_agree_witness :
    pdfFooterCells ["Borrower", "Interest Rate", "Regular Payment"] [] =
      previewFooterCells ["Borrower", "Interest Rate", "Regular Payment"] [] := by
  exact pdf_preview_content_agree.2.2.2 ["Borrower", "Interest Rate", "Regular Payment"] []
    (by decide) (by decide) (by decide)

theorem digitChar_isDigit (d : ℕ) : (digitChar d).isDigit = true := by
  have h : d % 10 < 10 := Nat.mod_lt _ (by norm_num)
  rw [digitChar]
  revert h
  generalize d % 10 = k
  intro h
  interval_cases k <;> decide

theorem digitVal_digitChar (d : ℕ) : digitVal (digitChar d) = d % 10 := by
  have h : d % 10 < 10 := Nat.mod_lt _ (by norm_num)
  rw [digitChar]
  revert h
  generalize d % 10 = k
  intro h
  interval_cases k <;> decide

theorem digitsToNat_append_one (l : List Char) (ch : Char) :
    digitsToNat (l ++ [ch]) = 10 * digitsToNat l + digitVal ch := by
  rw [digitsToNat, List.foldl_append]
  rfl

theorem natDigitsAux_all_digits (fuel n : ℕ) :
    ∀ c ∈ natDigitsAux fuel n, c.isDigit = true := by
  induction fuel generalizing n with
  | zero => simp [natDigitsAux]
  | succ fuel ih =>
    intro c hc
    rw [natDigitsAux] at hc
    by_cases hn : n < 10
    · rw [if_pos hn] at hc
      simp only [List.mem_singleton] at hc
      subst hc
      exact digitChar_isDigit n
    · rw [if_neg hn] at hc
      rcases List.mem_append.mp hc with hin | hin
      · exact ih (n / 10) c hin
      · simp only [List.mem_singleton] at hin
        subst hin
        exact digitChar_isDigit (n % 10)

theorem natDigits_all_digits (n : ℕ) : ∀ c ∈ natDigits n, c.isDigit = true :=
  natDigitsAux_all_digits (n + 1) n

theorem natDigitsAux_ne_nil (fuel n : ℕ) : natDigitsAux (fuel + 1) n ≠ [] := by
  rw [natDigitsAux]
  by_cases hn : n < 10
  · rw [if_pos hn]
    simp
  · rw [if_neg hn]
    simp

theorem natDigits_ne_nil (n : ℕ) : natDigits n ≠ [] := natDigitsAux_ne_nil n n

theorem digitsToNat_natDigitsAux (fuel n : ℕ) (h : n < 10 ^ fuel) :
    digitsToNat (natDigitsAux fuel n) = n := by
  induction fuel generalizing n with
  | zero =>
    simp only [pow_zero, Nat.lt_one_iff] at h
    subst h
    rfl
  | succ fuel ih =>
    rw [natDigitsAux]
    by_cases hn : n < 10
    · rw [if_pos hn]
      show digitsToNat [digitChar n] = n
      rw [show digitsToNat [digitChar n] = digitVal (digitChar n) from by
        rw [digitsToNat]; simp [List.foldl_cons], digitVal_digitChar, Nat.mod_eq_of_lt hn]
    · rw [if_neg hn, digitsToNat_append_one, digitVal_digitChar,
        ih (n / 10) (by
          rw [pow_succ] at h
          exact Nat.div_lt_of_lt_mul (by linarith [h])),
        Nat.mod_mod_of_dvd, Nat.div_add_mod]
      exact dvd_refl 10

theorem digitsToNat_natDigits (n : ℕ) : digitsToNat (natDigits n) = n := by
  refine digitsToNat_natDigitsAux (n + 1) n ?_
  calc n < 10 ^ n := Nat.lt_pow_self (by norm_num) n
    _ ≤ 10 ^ (n + 1) := Nat.pow_le_pow_right (by norm_num) (Nat.le_succ n)

theorem digitsToNat_pad2 (b : ℕ) (h : b < 100) : digitsToNat (pad2 b) = b := by
  rw [pad2, show digitsToNat [digitChar (b / 10), digitChar b] =
    10 * digitVal (digitChar (b / 10)) + digitVal (digitChar b) from by
      rw [digitsToNat]; simp [List.foldl_cons], digitVal_digitChar, digitVal_digitChar,
    Nat.mod_eq_of_lt (Nat.div_lt_of_lt_mul (by linarith)), Nat.div_add_mod]

theorem filter_group3RevAux (p : Char → Bool) (hp : p ',' = false) (fuel : ℕ)
    (l : List Char) : (group3RevAux fuel l).filter p = l.filter p := by
  induction fuel generalizing l with
  | zero => rfl
  | succ fuel ih =>
    rw [group3RevAux]
    by_cases hl : l.length ≤ 3
    · rw [if_pos hl]
    · rw [if_neg hl, List.filter_append, List.filter_cons, hp]
      simp only [Bool.false_eq_true, if_false]
      rw [ih (l.drop 3), ← List.filter_append, List.take_append_drop]

theorem filter_groupDigits (p : Char → Bool) (hp : p ',' = false) (ds : List Char) :
    (groupDigits ds).filter p = ds.filter p := by
  rw [groupDigits, group3Rev, List.filter_reverse, filter_group3RevAux p hp,
    List.filter_reverse, List.reverse_reverse]

theorem filter_keep_of_all_digits (l : List Char) (h : ∀ c ∈ l, c.isDigit = true) :
    l.filter currencyKeep = l := by
  rw [List.filter_eq_self]
  intro c hc
  rw [currencyKeep, h c hc]
  rfl

theorem mem_group3RevAux (fuel : ℕ) (l : List Char) (c : Char)
    (h : c ∈ group3RevAux fuel l) : c ∈ l ∨ c = ',' := by
  induction fuel generalizing l with
  | zero => exact Or.inl h
  | succ fuel ih =>
    rw [group3RevAux] at h
    by_cases hl : l.length ≤ 3
    · rw [if_pos hl] at h
      exact Or.inl h
    · rw [if_neg hl] at h
      rcases List.mem_append.mp h with hin | hin
      · exact Or.inl (List.mem_of_mem_take hin)
      · rcases List.mem_cons.mp hin with hin | hin
        · exact Or.inr hin
        · rcases ih (l.drop 3) hin with hin2 | hin2
          · exact Or.inl (List.mem_of_mem_drop hin2)
          · exact Or.inr hin2

theorem mem_groupDigits (ds : List Char) (c : Char) (h : c ∈ groupDigits ds) :
    c ∈ ds ∨ c = ',' := by
  rw [groupDigits, List.mem_reverse] at h
  rcases mem_group3RevAux _ _ _ h with hin | hin
  · exact Or.inl (List.mem_reverse.mp hin)
  · exact Or.inr hin

/-- Character classification of the USD output: only a minus sign, the dollar
sign, digits, commas and the decimal point ever appear. -/
theorem mem_usdChars (f : JsFin) (c : Char) (h : c ∈ usdChars f) :
    c = '-' ∨ c = '$' ∨ c = ',' ∨ c = '.' ∨ c.isDigit = true := by
  rw [usdChars] at h
  rcases List.mem_append.mp h with hin | hin
  · rcases List.mem_append.mp hin with hin1 | hin1
    · split at hin1
      · simp only [List.mem_singleton] at hin1
        exact Or.inl hin1
      · simp at hin1
    · rcases List.mem_cons.mp hin1 with hin2 | hin2
      · exact Or.inr (Or.inl hin2)
      · rcases mem_groupDigits _ _ hin2 with hin3 | hin3
        · exact Or.inr (Or.inr (Or.inr (Or.inr (natDigits_all_digits _ c hin3))))
        · exact Or.inr (Or.inr (Or.inl hin3))
  · rcases List.mem_cons.mp hin with hin3 | hin3
    · exact Or.inr (Or.inr (Or.inr (Or.inl hin3)))
    · rw [pad2] at hin3
      rcases List.mem_cons.mp hin3 with hin4 | hin4
      · exact Or.inr (Or.inr (Or.inr (Or.inr (hin4 ▸ digitChar_isDigit _))))
      · simp only [List.mem_singleton] at hin4
        exact Or.inr (Or.inr (Or.inr (Or.inr (hin4 ▸ digitChar_isDigit _))))

/-- The residue of the USD output under the `[^0-9.-]` strip: the optional
sign, the ungrouped dollar digits, the point and the two cent digits. -/
theorem filter_usdChars (f : JsFin) :
    (usdChars f).filter currencyKeep =
      (if negDisplay f then ['-'] else []) ++
        natDigits (centsOf f.q / 100) ++ '.' :: pad2 (centsOf f.q % 100) := by
  rw [usdChars, List.filter_append, List.filter_append, List.filter_cons]
  rw [show currencyKeep '$' = false from by decide]
  simp only [Bool.false_eq_true, if_false]
  rw [filter_groupDigits currencyKeep (by decide),
    filter_keep_of_all_digits _ (natDigits_all_digits _), List.filter_cons,
    show currencyKeep '.' = true from by decide]
  simp only [if_true]
  rw [show (pad2 (centsOf f.q % 100)).filter currencyKeep = pad2 (centsOf f.q % 100) from
    filter_keep_of_all_digits _ (by
      intro c hc
      rw [pad2] at hc
      rcases List.mem_cons.mp hc with h4 | h4
      · exact h4 ▸ digitChar_isDigit _
      · simp only [List.mem_singleton] at h4
        exact h4 ▸ digitChar_isDigit _)]
  by_cases hneg : negDisplay f = true
  · rw [if_pos hneg]
    rfl
  · rw [if_neg hneg]
    rfl

theorem takeWhile_append_all (p : Char → Bool) (l1 l2 : List Char)
    (h : ∀ c ∈ l1, p c = true) : (l1 ++ l2).takeWhile p = l1 ++ l2.takeWhile p := by
  induction l1 with
  | nil => simp
  | cons c cs ih =>
    rw [List.cons_append, List.takeWhile_cons, if_pos (h c (by simp)), List.cons_append,
      ih (fun x hx => h x (by simp [hx]))]

theorem dropWhile_append_all (p : Char → Bool) (l1 l2 : List Char)
    (h : ∀ c ∈ l1, p c = true) : (l1 ++ l2).dropWhile p = l2.dropWhile p := by
  induction l1 with
  | nil => simp
  | cons c cs ih =>
    rw [List.cons_append, List.dropWhile_cons, if_pos (h c (by simp)),
      ih (fun x hx => h x (by simp [hx]))]

theorem digit_bne_dot (c : Char) (h : c.isDigit = true) : (c != '.') = true := by
  by_cases hc : c = '.'
  · subst hc
    exact absurd h (by decide)
  · simp [bne_iff_ne, hc]

theorem digit_beq_dash (c : Char) (h : c.isDigit = true) : (c == '-') = false := by
  by_cases hc : c = '-'
  · subst hc
    exact absurd h (by decide)
  · simp [hc]

theorem digit_beq_dot (c : Char) (h : c.isDigit = true) : (c == '.') = false := by
  by_cases hc : c = '.'
  · subst hc
    exact absurd h (by decide)
  · simp [hc]

theorem pad2_all_digits (b : ℕ) : ∀ c ∈ pad2 b, c.isDigit = true := by
  intro c hc
  rw [pad2] at hc
  rcases List.mem_cons.mp hc with h4 | h4
  · exact h4 ▸ digitChar_isDigit _
  · simp only [List.mem_singleton] at h4
    exact h4 ▸ digitChar_isDigit _

/-- The stripped residue of a formatted nonnegative amount converts back to
its dollars-plus-cents value. -/
theorem jsUnsigned_digitsDotPad (a b : ℕ) (hb : b < 100) :
    jsUnsignedOfCleaned (natDigits a ++ '.' :: pad2 b) =
      some ((a : ℚ) + b / 10 ^ 2, a == 0 && b == 0) := by
  have hdigits := natDigits_all_digits a
  have htake : (natDigits a ++ '.' :: pad2 b).takeWhile (· != '.') = natDigits a := by
    rw [takeWhile_append_all _ _ _ (fun c hc => digit_bne_dot c (hdigits c hc)),
      List.takeWhile_cons]
    simp
  have hdrop : ((natDigits a ++ '.' :: pad2 b).dropWhile (· != '.')).drop 1 = pad2 b := by
    rw [dropWhile_append_all _ _ _ (fun c hc => digit_bne_dot c (hdigits c hc)),
      List.dropWhile_cons]
    simp
  refine jsUnsignedOfCleaned_eval _ a b 2 ?_ ?_ ?_ ?_ ?_ ?_
  · rw [List.any_append]
    have h1 : (natDigits a).any (· == '-') = false := by
      rw [List.any_eq_false]
      intro c hc
      simp [digit_beq_dash c (hdigits c hc)]
    have h2 : ('.' :: pad2 b).any (· == '-') = false := by
      rw [List.any_eq_false]
      intro c hc
      rcases List.mem_cons.mp hc with h4 | h4
      · subst h4
        decide
      · simp [digit_beq_dash c (pad2_all_digits b c h4)]
    rw [h1, h2]
    rfl
  · rw [List.filter_append,
      show (natDigits a).filter (· == '.') = [] from List.filter_eq_nil_iff.mpr
        (fun c hc => by simp [digit_beq_dot c (hdigits c hc)]),
      List.filter_cons,
      show (pad2 b).filter (· == '.') = [] from List.filter_eq_nil_iff.mpr
        (fun c hc => by simp [digit_beq_dot c (pad2_all_digits b c hc)])]
    simp
  · rcases hnd : natDigits a with _ | ⟨c0, rest⟩
    · exact absurd hnd (natDigits_ne_nil a)
    · have hc0 : c0.isDigit = true := hdigits c0 (by rw [hnd]; exact List.mem_cons_self c0 rest)
      rw [List.any_append, List.any_cons, hc0]
      rfl
  · rw [htake, digitsToNat_natDigits]
  · rw [hdrop, digitsToNat_pad2 b hb]
  · rw [hdrop]
    rfl

theorem jsNumberOfCleaned_head_not_dash (c0 : Char) (rest : List Char)
    (h : (c0 == '-') = false) :
    jsNumberOfCleaned (c0 :: rest) =
      (jsUnsignedOfCleaned (c0 :: rest)).map (fun p => ⟨p.1, false⟩) := by
  rw [jsNumberOfCleaned.eq_def]
  split
  · rename_i r heq
    rw [List.cons.injEq] at heq
    rw [heq.1] at h
    simp at h
  · rfl

theorem jsNumberOfCleaned_dash_cons (rest : List Char) :
    jsNumberOfCleaned ('-' :: rest) =
      (jsUnsignedOfCleaned rest).map (fun p => ⟨-p.1, p.2⟩) := rfl

theorem dollar_mem_usdChars (f : JsFin) : '$' ∈ usdChars f := by
  rw [usdChars]
  exact List.mem_append.mpr (Or.inl (List.mem_append.mpr (Or.inr (List.mem_cons_self _ _))))

theorem paren_not_mem_usdChars (f : JsFin) : '(' ∉ usdChars f := by
  intro hmem
  rcases mem_usdChars f '(' hmem with h | h | h | h | h <;> simp at h

theorem wsOnly_formatUSD (f : JsFin) : wsOnly (formatUSD f) = false := by
  rw [wsOnly, formatUSD]
  exact List.all_eq_false.mpr ⟨'$', dollar_mem_usdChars f, by decide⟩

theorem contains_eq_false_of_not_mem (l : List Char) (c : Char) (h : c ∉ l) :
    l.contains c = false := by
  induction l with
  | nil => rfl
  | cons x xs ih =>
    rw [List.contains_cons]
    have hx : (c == x) = false := by
      by_cases hcx : c = x
      · exact absurd (hcx ▸ List.mem_cons_self x xs) h
      · simp [hcx]
    rw [hx, ih (fun hmem => h (List.mem_cons_of_mem x hmem))]
    rfl

/-- Parsing a formatted currency string back: the parse succeeds, recovering
the rounded cents with the displayed sign (`-0` when a sign was displayed for
a zero amount). -/
theorem parse_formatUSD (f : JsFin) :
    parseCurrency (.str (formatUSD f)) =
      some (if negDisplay f then
              JsFin.mk (-((centsOf f.q / 100 : ℕ) + (centsOf f.q % 100 : ℕ) / 10 ^ 2 : ℚ))
                ((centsOf f.q / 100 == 0) && (centsOf f.q % 100 == 0))
            else
              ⟨((centsOf f.q / 100 : ℕ) : ℚ) + (centsOf f.q % 100 : ℕ) / 10 ^ 2, false⟩) := by
  have hb : centsOf f.q % 100 < 100 := Nat.mod_lt _ (by norm_num)
  have hclean : (formatUSD f).toList.filter currencyKeep =
      (if negDisplay f then ['-'] else []) ++
        natDigits (centsOf f.q / 100) ++ '.' :: pad2 (centsOf f.q % 100) :=
    filter_usdChars f
  have hnoparen : ((formatUSD f).toList.contains '(' && (formatUSD f).toList.contains ')') =
      false := by
    rw [show (formatUSD f).toList = usdChars f from rfl,
      contains_eq_false_of_not_mem _ _ (paren_not_mem_usdChars f)]
    rfl
  have hcondfail : ¬(((formatUSD f).toList.contains '(' &&
      (formatUSD f).toList.contains ')') = true ∧
      0 < (if negDisplay f then
              JsFin.mk (-((centsOf f.q / 100 : ℕ) + (centsOf f.q % 100 : ℕ) / 10 ^ 2 : ℚ))
                ((centsOf f.q / 100 == 0) && (centsOf f.q % 100 == 0))
            else
              ⟨((centsOf f.q / 100 : ℕ) : ℚ) + (centsOf f.q % 100 : ℕ) / 10 ^ 2,
                false⟩).q) := by
    intro hcond
    rw [hnoparen] at hcond
    exact absurd hcond.1 (by simp)
  by_cases hneg : negDisplay f = true
  · have hnum : jsNumberOfCleaned ((formatUSD f).toList.filter currencyKeep) =
        some ⟨-((centsOf f.q / 100 : ℕ) + (centsOf f.q % 100 : ℕ) / 10 ^ 2 : ℚ),
          (centsOf f.q / 100 == 0) && (centsOf f.q % 100 == 0)⟩ := by
      rw [hclean, if_pos hneg, List.append_assoc, List.singleton_append,
        jsNumberOfCleaned_dash_cons, jsUnsigned_digitsDotPad _ _ hb]
      rfl
    rw [parseCurrency_str_eval _ _ (wsOnly_formatUSD f) hnum, if_neg, if_pos hneg]
    intro hcond
    rw [hnoparen] at hcond
    exact absurd hcond.1 (by simp)
  · have hnum : jsNumberOfCleaned ((formatUSD f).toList.filter currencyKeep) =
        some ⟨((centsOf f.q / 100 : ℕ) : ℚ) + (centsOf f.q % 100 : ℕ) / 10 ^ 2, false⟩ := by
      rw [hclean, if_neg hneg, List.nil_append]
      rcases hnd : natDigits (centsOf f.q / 100) with _ | ⟨c0, rest⟩
      · exact absurd hnd (natDigits_ne_nil _)
      · have hc0 : c0.isDigit = true :=
          natDigits_all_digits _ c0 (by rw [hnd]; exact List.mem_cons_self c0 rest)
        rw [List.cons_append, jsNumberOfCleaned_head_not_dash c0 _ (digit_beq_dash c0 hc0),
          ← List.cons_append, ← hnd, jsUnsigned_digitsDotPad _ _ hb]
        rfl
    rw [parseCurrency_str_eval _ _ (wsOnly_formatUSD f) hnum, if_neg, if_neg hneg]
    intro hcond
    rw [hnoparen] at hcond
    exact absurd hcond.1 (by simp)

theorem centsQ_eq (c : ℕ) :
    ((c / 100 : ℕ) : ℚ) + ((c % 100 : ℕ) : ℚ) / 10 ^ 2 = (c : ℚ) / 100 := by
  have h : ((100 * (c / 100) + c % 100 : ℕ) : ℚ) = (c : ℚ) := by rw [Nat.div_add_mod]
  push_cast at h
  field_simp
  linarith

theorem centsOf_of_cents (c : ℕ) : centsOf ((c : ℚ) / 100) = c := by
  have hmul : (c : ℚ) / 100 * 100 = c := div_mul_cancel₀ _ (by norm_num)
  refine centsOf_eval_nonneg _ _ (by positivity) (by rw [hmul]; linarith) ?_
  rw [hmul]
  linarith

theorem centsOf_neg_of_cents (c : ℕ) : centsOf (-((c : ℚ) / 100)) = c := by
  have hmul : (c : ℚ) / 100 * 100 = c := div_mul_cancel₀ _ (by norm_num)
  refine centsOf_eval_nonpos _ _ (by simp; positivity) ?_ ?_
  · rw [neg_neg, hmul]
    linarith
  · rw [neg_neg, hmul]
    linarith

/-- Re-formatting a parsed-back formatted value reproduces the original
formatted string: the recovered value has the same rounded cents and the same
displayed sign (via the negative-zero flag when the amount is zero). -/
theorem formatUSD_parse_roundtrip (f : JsFin) :
    formatUSD (if negDisplay f then
        JsFin.mk (-((centsOf f.q / 100 : ℕ) + (centsOf f.q % 100 : ℕ) / 10 ^ 2 : ℚ))
          ((centsOf f.q / 100 == 0) && (centsOf f.q % 100 == 0))
      else
        ⟨((centsOf f.q / 100 : ℕ) : ℚ) + (centsOf f.q % 100 : ℕ) / 10 ^ 2, false⟩) =
      formatUSD f := by
  have hq := centsQ_eq (centsOf f.q)
  by_cases hneg : negDisplay f = true
  · rw [if_pos hneg]
    have hc : centsOf (JsFin.mk
        (-((centsOf f.q / 100 : ℕ) + (centsOf f.q % 100 : ℕ) / 10 ^ 2 : ℚ))
        ((centsOf f.q / 100 == 0) && (centsOf f.q % 100 == 0))).q = centsOf f.q := by
      show centsOf (-((centsOf f.q / 100 : ℕ) + (centsOf f.q % 100 : ℕ) / 10 ^ 2 : ℚ)) =
        centsOf f.q
      rw [hq]
      exact centsOf_neg_of_cents (centsOf f.q)
    have hnd : negDisplay (JsFin.mk
        (-((centsOf f.q / 100 : ℕ) + (centsOf f.q % 100 : ℕ) / 10 ^ 2 : ℚ))
        ((centsOf f.q / 100 == 0) && (centsOf f.q % 100 == 0))) = true := by
      rw [negDisplay]
      by_cases hc0 : centsOf f.q = 0
      · rw [if_neg]
        · rw [hc0]
          rfl
        · show ¬(-((centsOf f.q / 100 : ℕ) + (centsOf f.q % 100 : ℕ) / 10 ^ 2 : ℚ) < 0)
          rw [hq, hc0]
          norm_num
      · rw [if_pos]
        show -((centsOf f.q / 100 : ℕ) + (centsOf f.q % 100 : ℕ) / 10 ^ 2 : ℚ) < 0
        rw [hq]
        have hcpos : 0 < centsOf f.q := Nat.pos_of_ne_zero hc0
        have : (0 : ℚ) < (centsOf f.q : ℚ) / 100 := by positivity
        linarith
    rw [formatUSD_eval _ (centsOf f.q) true hc hnd, formatUSD_eval f (centsOf f.q) true rfl hneg]
  · rw [if_neg hneg]
    have hc : centsOf (JsFin.mk
        (((centsOf f.q / 100 : ℕ) : ℚ) + (centsOf f.q % 100 : ℕ) / 10 ^ 2) false).q =
        centsOf f.q := by
      show centsOf (((centsOf f.q / 100 : ℕ) : ℚ) + (centsOf f.q % 100 : ℕ) / 10 ^ 2) =
        centsOf f.q
      rw [hq]
      exact centsOf_of_cents (centsOf f.q)
    have hnd : negDisplay (JsFin.mk
        (((centsOf f.q / 100 : ℕ) : ℚ) + (centsOf f.q % 100 : ℕ) / 10 ^ 2) false) = false := by
      rw [negDisplay, if_neg]
      show ¬(((centsOf f.q / 100 : ℕ) : ℚ) + ((centsOf f.q % 100 : ℕ) : ℚ) / 10 ^ 2 < 0)
      rw [hq]
      push_neg
      positivity
    rw [formatUSD_eval _ (centsOf f.q) false hc hnd,
      formatUSD_eval f (centsOf f.q) false rfl
        (by revert hneg; cases negDisplay f <;> simp)]

/-- **C10.** `formatCurrency` is idempotent: re-formatting any formatted value
returns it unchanged — a parseable value formats to a currency string that
parses back to the same rounded amount (with the displayed sign) and
re-formats identically, and an unparseable value's string fallback is itself
unparseable and passes through unchanged; with the formatted-string round
trips of `"$1,234.56"` and `"-$1,234.56"` and the unparseable `"N/A"`. -/
theorem formatCurrency_idempotent :
    (∀ v, formatCurrency (.str (formatCurrency v)) = formatCurrency v) ∧
    formatCurrency (.str "$1,234.56") = "$1,234.56" ∧
    formatCurrency (.str "-$1,234.56") = "-$1,234.56" ∧
    formatCurrency (.str (formatCurrency (.str "N/A"))) = formatCurrency (.str "N/A") := by
  have hmain : ∀ v, formatCurrency (.str (formatCurrency v)) = formatCurrency v := by
    intro v
    rcases hp : parseCurrency v with _ | f
    · have hv : formatCurrency v = jsStringOrEmpty v := by rw [formatCurrency, hp]
      rw [hv]
      cases v with
      | num f => simp [parseCurrency] at hp
      | str s =>
        show formatCurrency (.str s) = jsStringOrEmpty (.str s)
        rw [formatCurrency, hp]
      | null => decide
      | bool b => cases b <;> decide
    · rw [formatCurrency_of_parse v f hp, formatCurrency_of_parse _ _ (parse_formatUSD f),
        formatUSD_parse_roundtrip f]
  have hpos : parseCurrency (.str "$1,234.56") = some ⟨(1234 : ℚ) + 56 / 10 ^ 2, false⟩ := by
    have hn : jsNumberOfCleaned ("$1,234.56".toList.filter currencyKeep) =
        some ⟨(1234 : ℚ) + 56 / 10 ^ 2, false⟩ := by
      rw [show "$1,234.56".toList.filter currencyKeep = '1' :: ['2', '3', '4', '.', '5', '6']
        from by decide]
      exact jsNumberOfCleaned_eval_pos '1' ['2', '3', '4', '.', '5', '6'] 1234 56 2
        (by decide) (by decide) (by decide) (by decide) (by decide) (by decide) (by decide)
    rw [parseCurrency_str_eval _ _ (by decide) hn,
      if_neg (fun hcond => absurd hcond.1 (by decide))]
  have hneg : parseCurrency (.str "-$1,234.56") =
      some ⟨-((1234 : ℚ) + 56 / 10 ^ 2), (1234 == 0 && 56 == 0 : Bool)⟩ := by
    have hn : jsNumberOfCleaned ("-$1,234.56".toList.filter currencyKeep) =
        some ⟨-((1234 : ℚ) + 56 / 10 ^ 2), (1234 == 0 && 56 == 0 : Bool)⟩ := by
      rw [show "-$1,234.56".toList.filter currencyKeep = '-' :: ['1', '2', '3', '4', '.', '5', '6']
        from by decide]
      exact jsNumberOfCleaned_eval_neg ['1', '2', '3', '4', '.', '5', '6'] 1234 56 2
        (by decide) (by decide) (by decide) (by decide) (by decide) (by decide)
    rw [parseCurrency_str_eval _ _ (by decide) hn,
      if_neg (fun hcond => absurd hcond.1 (by decide))]
  refine ⟨hmain, ?_, ?_, hmain (.str "N/A")⟩
  · rw [formatCurrency_of_parse _ _ hpos,
      formatUSD_eval _ 123456 false
        (centsOf_eval_nonneg _ _ (by norm_num) (by norm_num) (by norm_num))
        (negDisplay_of_nonneg _ (by norm_num))]
    decide
  · rw [formatCurrency_of_parse _ _ hneg,
      formatUSD_eval _ 123456 true
        (centsOf_eval_nonpos _ _ (by norm_num) (by norm_num) (by norm_num))
        (negDisplay_of_neg _ (by norm_num))]
    decide

end ReportGen
